import Mathlib

/-!
Verification of the hierarchical storage layer of py-modelrunner.

This file shallowly embeds `modelrunner/storage/base.py` (the `StorageBase`
policy layer) together with its in-memory backend
`modelrunner/storage/backend/memory.py`, and the legacy-format triage logic of
`modelrunner/_compatibility/triage.py`.

Modelling conventions:
* A Python nested dict is an association list `List (String × MemValue)`;
  Python dict assignment replaces the value in place when the key exists and
  appends otherwise, which preserves insertion order exactly like `alSet`.
* Python exceptions are modelled with `Except Err`; since Python mutations
  performed before an exception persist, every operation returns the
  resulting store alongside the `Except` value: `Except Err α × Dict`.
* numpy arrays are values `NDArray` (shape, dtype tag, flat data); copies
  (`np.copy`, `np.array(·, copy=True)`, `copy.deepcopy`) are the identity in
  this value model, so the copy/no-copy distinction of `read_array` vanishes.
* Array scalars are modelled as `Int`; the dtype tag travels separately.
-/

namespace PyModelrunner

/-- A numpy array: shape, dtype tag and flattened contents.  0-d arrays have
`shape = []`. -/
structure NDArray where
  shape : List Nat
  dtype : String
  data : List Int
deriving DecidableEq, Repr

/-- One entry of the Python list backing a dynamic array in `MemoryStorage`:
`_extend_dynamic_array` appends `data.item()` (a Python scalar) for 0-d
entries and a copied array otherwise. -/
inductive DynEntry where
  | scalar (x : Int)
  | array (a : NDArray)
deriving DecidableEq, Repr

/-- Python exception kinds raised by the embedded code. -/
inductive Err where
  | keyError
  | typeError
  | indexError
  | attributeError
  | accessError
  | runtimeError
  | valueError
  | decodingError
deriving DecidableEq, Repr

/-- A value stored in the nested-dict tree of `MemoryStorage._data`.  Groups
and item records are dicts; the other constructors are the leaf values the
backend stores under the reserved keys "data", "shape", "dtype",
"record_array" and inside "__attrs__". -/
inductive MemValue where
  | dict (entries : List (String × MemValue))
  | str (s : String)
  | boolV (b : Bool)
  | enc (tag : String) (payload : String)
  | ndarr (a : NDArray)
  | dynlist (l : List DynEntry)
  | shapeV (s : List Nat)
  | dtypeV (d : String)
  | objV (payload : String)

/-- The root mapping `MemoryStorage._data`. -/
abbrev Dict := List (String × MemValue)

/-- First binding of `key`, like Python dict lookup. -/
def alFind {β : Type} : List (String × β) → String → Option β
  | [], _ => none
  | (k, v) :: rest, key => if k = key then some v else alFind rest key

/-- Python dict assignment `d[key] = val`: replace in place if present,
append otherwise (insertion order preserved). -/
def alSet {β : Type} : List (String × β) → String → β → List (String × β)
  | [], key, val => [(key, val)]
  | (k, v) :: rest, key, val =>
      if k = key then (k, val) :: rest else (k, v) :: alSet rest key val

/-- Python `key in d` on a dict (internal keys included). -/
def alHas {β : Type} (es : List (String × β)) (key : String) : Bool :=
  (alFind es key).isSome

/-- Python `key.startswith("__")`, the reserved-internal-key test of the
storage format, implemented over the character list so that it evaluates
definitionally (byte-level and character-level prefix tests agree). -/
def isReserved (k : String) : Bool := "__".data.isPrefixOf k.data

/-- Modelled from the spec (§4.1, §6): `access_modes.py` is not under `src/`.
The capability bundle of a parsed access mode: `read`, `insert` (create new
nodes), `overwrite` (replace existing nodes), `set_attrs` (write attributes),
`dynamic_append` (append to dynamic arrays). -/
structure AccessMode where
  read : Bool
  insert : Bool
  overwrite : Bool
  set_attrs : Bool
  dynamic_append : Bool
deriving DecidableEq, Repr

/-- Modelled from the spec (§4.1, §6): `access_modes.py` is not under `src/`.
Parsing of the closed set of mode tokens into capability bundles; an
unrecognized token is an invalid-configuration error (`none`).  Fields are
read, insert, overwrite, set_attrs, dynamic_append. -/
def AccessMode.parse (tok : String) : Option AccessMode :=
  if tok = "read" then some ⟨true, false, false, false, false⟩
  else if tok = "readonly" then some ⟨true, false, false, false, false⟩
  else if tok = "insert" then some ⟨true, true, false, true, true⟩
  else if tok = "overwrite" then some ⟨true, true, true, true, true⟩
  else if tok = "full" then some ⟨true, true, true, true, true⟩
  else none

/-- `MemoryStorage._get_parent(loc, check_write)` together with the single use
made of the returned parent reference: the walk descends along `loc[:-1]`,
creating an empty dict for a key missing from a dict (`value[part] = {}`) and
raising for non-dict containers (a string lookup on an `ndarray` raises
`IndexError`, on lists/tuples/strings it raises `TypeError`, and the
defensive `isinstance` check in the `except KeyError` branch also ends in
`TypeError`).  At the parent, `check_write` raises `AccessError` when
overwriting is disabled and the final name exists; otherwise `op` receives
the parent's entries and the final name and returns the result together with
the updated entries (the mutation Python performs through the returned
reference).  `_get_parent([])` raises `KeyError` (`loc[-1]` has no parent);
the post-loop `isinstance` check turns a non-dict parent into `TypeError`. -/
def getParentOp {α : Type} (ov cw : Bool)
    (op : Dict → String → Except Err α × Dict) :
    MemValue → List String → Except Err α × MemValue
  | v, [] =>
      match v with
      | .dict es => (.error .keyError, .dict es)
      | v => (.error .typeError, v)
  | v, [name] =>
      match v with
      | .dict es =>
          if cw && !ov && alHas es name then (.error .accessError, .dict es)
          else
            let r := op es name
            (r.1, .dict r.2)
      | v => (.error .typeError, v)
  | v, part :: next :: rest =>
      match v with
      | .dict es =>
          match alFind es part with
          | some v1 =>
              let r := getParentOp ov cw op v1 (next :: rest)
              (r.1, .dict (alSet es part r.2))
          | none =>
              let r := getParentOp ov cw op (.dict []) (next :: rest)
              (r.1, .dict (alSet es part r.2))
      | .ndarr a => (.error .indexError, .ndarr a)
      | v => (.error .typeError, v)

/-- Run a `_get_parent`-based operation on the root dict.  The fallback arm is
unreachable: the walk preserves the dict constructor at the root. -/
def runParent {α : Type} (ov cw : Bool)
    (op : Dict → String → Except Err α × Dict) (d : Dict) (loc : List String) :
    Except Err α × Dict :=
  match getParentOp ov cw op (.dict d) loc with
  | (r, .dict es) => (r, es)
  | (r, _) => (r, d)

/-- The parent-level operation of `MemoryStorage.__getitem__`:
`parent[name]`, raising `KeyError` when absent. -/
def lookupOp : Dict → String → Except Err MemValue × Dict :=
  fun es name =>
    match alFind es name with
    | some v => (.ok v, es)
    | none => (.error .keyError, es)

/-- `MemoryStorage.__getitem__`: the root itself for the empty location,
otherwise `_get_parent` followed by `parent[name]`. -/
def getitem (d : Dict) (loc : List String) : Except Err MemValue × Dict :=
  if loc.isEmpty then (.ok (.dict d), d)
  else runParent false false lookupOp d loc

/-- The child names of a dict with the reserved double-underscore keys
filtered out, as in `MemoryStorage.keys`. -/
def filteredKeys (es : Dict) : List String :=
  (es.map Prod.fst).filter fun k => !isReserved k

/-- `MemoryStorage.keys`: `self[loc].keys()` (or the root's keys) filtered;
`.keys()` on a non-dict raises `AttributeError`. -/
def keys (d : Dict) (loc : List String) : Except Err (List String) × Dict :=
  if loc.isEmpty then (.ok (filteredKeys d), d)
  else
    match getitem d loc with
    | (.ok (.dict es), d1) => (.ok (filteredKeys es), d1)
    | (.ok _, d1) => (.error .attributeError, d1)
    | (.error e, d1) => (.error e, d1)

/-- `StorageBase.__contains__`: the root is always contained; otherwise
`loc[-1] in self.keys(loc[:-1])`, with `KeyError` caught and turned into
`False`.  Note the call is not read-only: the `keys` walk may create missing
intermediate groups. -/
def contains (d : Dict) (loc : List String) : Except Err Bool × Dict :=
  if loc.isEmpty then (.ok true, d)
  else
    match keys d loc.dropLast with
    | (.ok ks, d1) => (.ok (ks.contains (loc.getLastD "")), d1)
    | (.error .keyError, d1) => (.ok false, d1)
    | (.error e, d1) => (.error e, d1)

/-- `MemoryStorage._create_group`: `_get_parent(loc, check_write=True)` then
`parent[name] = {}`. -/
def memCreateGroup (m : AccessMode) (d : Dict) (loc : List String) :
    Except Err Unit × Dict :=
  runParent m.overwrite true
    (fun es name => (.ok (), alSet es name (.dict []))) d loc

/-- The prefixes `loc[:1], loc[:2], …, loc` iterated by the creation loop of
`StorageBase.create_group`. -/
def locPrefixes (loc : List String) : List (List String) :=
  (List.range loc.length).map fun i => loc.take (i + 1)

/-- The loop of `StorageBase.create_group`: for each prefix, create the group
when it is not yet contained. -/
def createPrefixes (m : AccessMode) :
    Dict → List (List String) → Except Err Unit × Dict
  | d, [] => (.ok (), d)
  | d, p :: ps =>
      match contains d p with
      | (.ok true, d1) => createPrefixes m d1 ps
      | (.ok false, d1) =>
          match memCreateGroup m d1 p with
          | (.ok (), d2) => createPrefixes m d2 ps
          | (.error e, d2) => (.error e, d2)
      | (.error e, d1) => (.error e, d1)

/-- First phase of `StorageBase.create_group` (lines 162-178): the
existence/capability checks and the creation of all missing groups along the
path; the attribute write that follows is in `create_group`. -/
def create_group_nodes (m : AccessMode) (d : Dict) (loc : List String) :
    Except Err Unit × Dict :=
  match contains d loc with
  | (.ok true, d1) =>
      if m.overwrite then (.ok (), d1) else (.error .accessError, d1)
  | (.ok false, d1) =>
      if !m.insert then (.error .accessError, d1)
      else createPrefixes m d1 (locPrefixes loc)
  | (.error e, d1) => (.error e, d1)

/-- Update of the `"__attrs__"` entry of an item record, as performed through
the reference returned by `__getitem__` in `MemoryStorage._write_attr`. -/
def updateAttrsEntry (es : Dict) (name : String) (value : MemValue) :
    Except Err Unit × Dict :=
  match alFind es "__attrs__" with
  | none => (.ok (), alSet es "__attrs__" (.dict [(name, value)]))
  | some (.dict as) => (.ok (), alSet es "__attrs__" (.dict (alSet as name value)))
  | some _ => (.error .typeError, es)

/-- The parent-level part of `MemoryStorage._write_attr`: look the item up
and update its `"__attrs__"` entry through the reference. -/
def attrOp (name : String) (value : MemValue) :
    Dict → String → Except Err Unit × Dict :=
  fun es iname =>
    match alFind es iname with
    | some (.dict ies) =>
        match updateAttrsEntry ies name value with
        | (.ok (), ies2) => (.ok (), alSet es iname (.dict ies2))
        | (.error e, _) => (.error e, es)
    | some _ => (.error .typeError, es)
    | none => (.error .keyError, es)

/-- `MemoryStorage._write_attr`: `item = self[loc]` then
`item["__attrs__"][name] = value` (creating the attrs dict when missing). -/
def memWriteAttr (d : Dict) (loc : List String) (name : String)
    (value : MemValue) : Except Err Unit × Dict :=
  if loc.isEmpty then
    let r := updateAttrsEntry d name value
    (r.1, r.2)
  else
    runParent false false (attrOp name value) d loc

/-- `MemoryStorage._read_attrs`: `self[loc].get("__attrs__", {})`, raising
`RuntimeError` when the stored attrs value is not a dict and
`AttributeError` when the item itself has no `.get`. -/
def memReadAttrs (d : Dict) (loc : List String) : Except Err Dict × Dict :=
  match getitem d loc with
  | (.ok (.dict es), d1) =>
      match alFind es "__attrs__" with
      | none => (.ok [], d1)
      | some (.dict as) => (.ok as, d1)
      | some _ => (.error .runtimeError, d1)
  | (.ok _, d1) => (.error .attributeError, d1)
  | (.error e, d1) => (.error e, d1)

/-- Modelled from the spec (§4.2): `attributes.py` is not under `src/`.
`encode_attr` deterministically encodes an arbitrary attribute value into a
primitive-safe tagged representation; unencodable values fall back to a
tagged opaque encoding whose payload is not tracked by this model. -/
def encode_attr : MemValue → MemValue
  | .str s => .enc "str" s
  | .boolV b => .enc "bool" (if b then "true" else "false")
  | .objV p => .enc "object" p
  | _ => .enc "object" ""

/-- Modelled from the spec (§4.2): `attributes.py` is not under `src/`.
`decode_attr` inverts `encode_attr`; an unrecognized type tag is a decoding
error, and values that were never encoded are returned unchanged. -/
def decode_attr : MemValue → Except Err MemValue
  | .enc "str" s => .ok (.str s)
  | .enc "bool" s => .ok (.boolV (s == "true"))
  | .enc "object" p => .ok (.objV p)
  | .enc _ _ => .error .decodingError
  | v => .ok v

/-- Modelled from the spec (§4.2): `decode_attrs` decodes every value of an
attribute mapping, keeping the keys. -/
def decode_attrs : Dict → Except Err Dict
  | [] => .ok []
  | (k, v) :: rest =>
      match decode_attr v with
      | .error e => .error e
      | .ok v2 =>
          match decode_attrs rest with
          | .error e => .error e
          | .ok rest2 => .ok ((k, v2) :: rest2)

/-- `StorageBase.read_attrs`: requires `read`; filters out the reserved
double-underscore keys of the raw attributes, then decodes the rest. -/
def read_attrs (m : AccessMode) (d : Dict) (loc : List String) :
    Except Err Dict × Dict :=
  if !m.read then (.error .accessError, d)
  else
    match memReadAttrs d loc with
    | (.ok raw, d1) =>
        match decode_attrs (raw.filter fun kv => !isReserved kv.1) with
        | .ok res => (.ok res, d1)
        | .error e => (.error e, d1)
    | (.error e, d1) => (.error e, d1)

/-- The loop of `StorageBase.write_attrs`: keys with the reserved prefix are
stored unencoded, all others through `encode_attr`. -/
def writeAttrsLoop : Dict → List String → List (String × MemValue) →
    Except Err Unit × Dict
  | d, _, [] => (.ok (), d)
  | d, loc, (name, value) :: rest =>
      let stored := if isReserved name then value else encode_attr value
      match memWriteAttr d loc name stored with
      | (.ok (), d1) => writeAttrsLoop d1 loc rest
      | (.error e, d1) => (.error e, d1)

/-- `StorageBase.write_attrs`: the `set_attrs` capability is checked first,
before the check whether any attributes remain to be written. -/
def write_attrs (m : AccessMode) (d : Dict) (loc : List String)
    (attrs : Option Dict) : Except Err Unit × Dict :=
  if !m.set_attrs then (.error .accessError, d)
  else
    match attrs with
    | none => (.ok (), d)
    | some as => if as.isEmpty then (.ok (), d) else writeAttrsLoop d loc as

/-- Python `dict.setdefault`. -/
def setdefault (es : Dict) (k : String) (v : MemValue) : Dict :=
  if alHas es k then es else alSet es k v

/-- `StorageBase._write_item_attrs`: defaults the kind tag `"__type__"` and
the class tag `"__class__"` (via `utils.encode_class`, here the already
qualified name string) into the attributes, then writes them. -/
def write_item_attrs (m : AccessMode) (d : Dict) (loc : List String)
    (attrs : Option Dict) (item_type : Option String) (cls : Option String) :
    Except Err Unit × Dict :=
  let a0 := attrs.getD []
  let a1 := match item_type with
    | some t => setdefault a0 "__type__" (.str t)
    | none => a0
  let a2 := match cls with
    | some c => setdefault a1 "__class__" (.str c)
    | none => a1
  write_attrs m d loc (some a2)

/-- `StorageBase.create_group` (with the group handle returned as `()`):
node creation followed by `_write_item_attrs` with no kind tag. -/
def create_group (m : AccessMode) (d : Dict) (loc : List String)
    (attrs : Option Dict) (cls : Option String) : Except Err Unit × Dict :=
  match create_group_nodes m d loc with
  | (.ok (), d1) => write_item_attrs m d1 loc attrs none cls
  | (.error e, d1) => (.error e, d1)

/-- `StorageBase.ensure_group`. -/
def ensure_group (m : AccessMode) (d : Dict) (loc : List String) :
    Except Err Unit × Dict :=
  match contains d loc with
  | (.ok true, d1) => (.ok (), d1)
  | (.ok false, d1) =>
      if !m.insert then (.error .accessError, d1)
      else create_group m d1 loc none none
  | (.error e, d1) => (.error e, d1)

/-- `MemoryStorage.can_update` (inherited `StorageBase.can_update`, a
constant property). -/
def can_update : Bool := true

/-- `StorageBase._check_write_access`: writing to the root is a
`RuntimeError`; an existing node needs `overwrite`, a new one needs `insert`
plus an existing (or insertable) parent group. -/
def check_write_access (m : AccessMode) (d : Dict) (loc : List String) :
    Except Err Unit × Dict :=
  if loc.isEmpty then (.error .runtimeError, d)
  else
    match contains d loc with
    | (.ok true, d1) =>
        if !can_update then (.error .runtimeError, d1)
        else if !m.overwrite then (.error .accessError, d1)
        else (.ok (), d1)
    | (.ok false, d1) =>
        if !m.insert then (.error .accessError, d1)
        else ensure_group m d1 loc.dropLast
    | (.error e, d1) => (.error e, d1)

/-- `MemoryStorage._write_array`: `parent[name] = {"data": np.copy(arr)}`. -/
def memWriteArray (m : AccessMode) (d : Dict) (loc : List String)
    (arr : NDArray) : Except Err Unit × Dict :=
  runParent m.overwrite true
    (fun es name => (.ok (), alSet es name (.dict [("data", .ndarr arr)]))) d loc

/-- `StorageBase.write_array`: access check, raw write, then the
kind/class/user attributes. -/
def write_array (m : AccessMode) (d : Dict) (loc : List String) (arr : NDArray)
    (attrs : Option Dict) (cls : Option String) : Except Err Unit × Dict :=
  match check_write_access m d loc with
  | (.ok (), d1) =>
      match memWriteArray m d1 loc arr with
      | (.ok (), d2) => write_item_attrs m d2 loc attrs (some "array") cls
      | (.error e, d2) => (.error e, d2)
  | (.error e, d1) => (.error e, d1)

/-- Number of elements of a subarray with the given shape. -/
def listProd : List Nat → Nat
  | [] => 1
  | n :: rest => n * listProd rest

/-- Indexing the first axis of an array (`arr[index]`); a 0-d array has no
axis to index (`IndexError`). -/
def sliceFirst (a : NDArray) (i : Nat) : Except Err NDArray :=
  match a.shape with
  | [] => .error .indexError
  | n :: rest =>
      if i < n then
        .ok ⟨rest, a.dtype, (a.data.drop (i * listProd rest)).take (listProd rest)⟩
      else .error .indexError

/-- `np.array` applied to one entry of a dynamic array's data list: scalars
become 0-d int arrays, arrays are returned as-is. -/
def dynEntryArray : DynEntry → NDArray
  | .scalar x => ⟨[], "int64", [x]⟩
  | .array a => a

/-- `np.array` applied to the Python list backing a dynamic array: a list of
scalars stacks to a 1-d int array, a list of equal-shape equal-dtype arrays
stacks along a new leading axis, anything inhomogeneous raises. -/
def stackEntries (l : List DynEntry) : Except Err NDArray :=
  match l with
  | [] => .ok ⟨[0], "float64", []⟩
  | .scalar _ :: _ =>
      if l.all fun e => match e with | .scalar _ => true | .array _ => false then
        .ok ⟨[l.length], "int64",
          l.map fun e => match e with | .scalar y => y | .array _ => 0⟩
      else .error .valueError
  | .array a :: rest =>
      if rest.all fun e =>
          match e with
          | .array b => b.shape == a.shape && b.dtype == a.dtype
          | .scalar _ => false then
        .ok ⟨l.length :: a.shape, a.dtype,
          l.foldr (fun e acc => (dynEntryArray e).data ++ acc) []⟩
      else .error .valueError

/-- `np.array(v)` for a raw value read from under `"data"`: an array is
returned unchanged (copies are the identity here), a dynamic-array list is
stacked, and any other Python object becomes a 0-d object array whose
payload this model does not track. -/
def npArrayOf : MemValue → Except Err NDArray
  | .ndarr a => .ok a
  | .dynlist l => stackEntries l
  | _ => .ok ⟨[], "object", []⟩

/-- `MemoryStorage._read_array`: `self[loc]["data"]`, optionally indexed. -/
def memReadArray (d : Dict) (loc : List String) (index : Option Nat) :
    Except Err MemValue × Dict :=
  match getitem d loc with
  | (.ok (.dict es), d1) =>
      match alFind es "data" with
      | some v =>
          match index with
          | none => (.ok v, d1)
          | some i =>
              match v with
              | .ndarr a =>
                  (match sliceFirst a i with
                   | .ok b => (.ok (.ndarr b), d1)
                   | .error e => (.error e, d1))
              | .dynlist l =>
                  (match l.get? i with
                   | some e => (.ok (.ndarr (dynEntryArray e)), d1)
                   | none => (.error .indexError, d1))
              | _ => (.error .typeError, d1)
      | none => (.error .keyError, d1)
  | (.ok (.ndarr _), d1) => (.error .indexError, d1)
  | (.ok _, d1) => (.error .typeError, d1)
  | (.error e, d1) => (.error e, d1)

/-- `StorageBase.read_array`: requires `read`; with `out` given the data is
copied into it (keeping `out`'s dtype, as `out[:] = …` casts), otherwise the
raw data is converted with `np.array`/`np.asanyarray` — both the identity on
values here, so `copy` does not affect the result. -/
def read_array (m : AccessMode) (d : Dict) (loc : List String)
    (out : Option NDArray) (index : Option Nat) (copy : Bool) :
    Except Err NDArray × Dict :=
  if !m.read then (.error .accessError, d)
  else
    match memReadArray d loc index with
    | (.ok v, d1) =>
        match npArrayOf v with
        | .ok a =>
            match out with
            | some o =>
                if o.shape = a.shape then (.ok ⟨o.shape, o.dtype, a.data⟩, d1)
                else (.error .valueError, d1)
            | none => (.ok a, d1)
        | .error e => (.error e, d1)
    | (.error e, d1) => (.error e, d1)

/-- `MemoryStorage._create_dynamic_array`: refuses (`RuntimeError`) when an
item already exists under the name, otherwise installs the record with an
empty data list, the per-entry shape and the dtype. -/
def memCreateDynamicArray (m : AccessMode) (d : Dict) (loc : List String)
    (shape : List Nat) (dtype : String) (record_array : Bool) :
    Except Err Unit × Dict :=
  runParent m.overwrite true
    (fun es name =>
      if alHas es name then (.error .runtimeError, es)
      else
        let item : Dict :=
          [("data", .dynlist []), ("shape", .shapeV shape), ("dtype", .dtypeV dtype)]
        let item := if record_array then alSet item "record_array" (.boolV true) else item
        (.ok (), alSet es name (.dict item))) d loc

/-- `StorageBase.create_dynamic_array`. -/
def create_dynamic_array (m : AccessMode) (d : Dict) (loc : List String)
    (shape : List Nat) (dtype : String) (record_array : Bool)
    (attrs : Option Dict) (cls : Option String) : Except Err Unit × Dict :=
  match check_write_access m d loc with
  | (.ok (), d1) =>
      match memCreateDynamicArray m d1 loc shape dtype record_array with
      | (.ok (), d2) => write_item_attrs m d2 loc attrs (some "dynamic_array") cls
      | (.error e, d2) => (.error e, d2)
  | (.error e, d1) => (.error e, d1)

/-- `np.issubdtype` restricted to the concrete dtype tags of this model,
where it coincides with equality. -/
def issubdtype (a b : String) : Bool := a == b

/-- The mutation `MemoryStorage._extend_dynamic_array` performs through the
item reference: shape check against `item["shape"]`, dtype check against
`item["dtype"]`, then `item["data"].append(...)` — a scalar for 0-d entries,
a copied array otherwise.  Both validation failures are `TypeError`s raised
before anything is appended. -/
def extendItemOp (arr : NDArray) : MemValue → Except Err Unit × MemValue
  | .dict es =>
      match alFind es "shape" with
      | none => (.error .keyError, .dict es)
      | some (.shapeV s) =>
          if s ≠ arr.shape then (.error .typeError, .dict es)
          else
            match alFind es "dtype" with
            | none => (.error .keyError, .dict es)
            | some (.dtypeV dt) =>
                if !issubdtype arr.dtype dt then (.error .typeError, .dict es)
                else
                  match alFind es "data" with
                  | some (.dynlist l) =>
                      let entry := if arr.shape.isEmpty
                        then DynEntry.scalar (arr.data.headD 0)
                        else DynEntry.array arr
                      (.ok (), .dict (alSet es "data" (.dynlist (l ++ [entry]))))
                  | some _ => (.error .attributeError, .dict es)
                  | none => (.error .keyError, .dict es)
            | some _ => (.error .typeError, .dict es)
      | some _ => (.error .typeError, .dict es)
  | .ndarr a => (.error .indexError, .ndarr a)
  | v => (.error .typeError, v)

/-- `MemoryStorage._extend_dynamic_array`: `item = self[loc]` followed by the
checked append through the reference. -/
def memExtendDynamicArray (d : Dict) (loc : List String) (arr : NDArray) :
    Except Err Unit × Dict :=
  if loc.isEmpty then
    match extendItemOp arr (.dict d) with
    | (r, .dict es) => (r, es)
    | (r, _) => (r, d)
  else
    runParent false false
      (fun es name =>
        match alFind es name with
        | some v =>
            let r := extendItemOp arr v
            (r.1, alSet es name r.2)
        | none => (.error .keyError, es)) d loc

/-- `StorageBase.extend_dynamic_array`: requires `dynamic_append`; the kind
tag must be `"dynamic_array"`, else `RuntimeError`. -/
def extend_dynamic_array (m : AccessMode) (d : Dict) (loc : List String)
    (arr : NDArray) : Except Err Unit × Dict :=
  if !m.dynamic_append then (.error .accessError, d)
  else
    match memReadAttrs d loc with
    | (.ok as, d1) =>
        match alFind as "__type__" with
        | some (.str t) =>
            if t = "dynamic_array" then memExtendDynamicArray d1 loc arr
            else (.error .runtimeError, d1)
        | _ => (.error .runtimeError, d1)
    | (.error e, d1) => (.error e, d1)

/-- `MemoryStorage._write_object`: `parent[name] = {"data": deepcopy(obj)}`
(deep copies are the identity in the value model). -/
def memWriteObject (m : AccessMode) (d : Dict) (loc : List String)
    (obj : String) : Except Err Unit × Dict :=
  runParent m.overwrite true
    (fun es name => (.ok (), alSet es name (.dict [("data", .objV obj)]))) d loc

/-- `StorageBase.write_object`. -/
def write_object (m : AccessMode) (d : Dict) (loc : List String) (obj : String)
    (attrs : Option Dict) (cls : Option String) : Except Err Unit × Dict :=
  match check_write_access m d loc with
  | (.ok (), d1) =>
      match memWriteObject m d1 loc obj with
      | (.ok (), d2) => write_item_attrs m d2 loc attrs (some "object") cls
      | (.error e, d2) => (.error e, d2)
  | (.error e, d1) => (.error e, d1)

/-! ## Legacy-format triage (`modelrunner/_compatibility/triage.py`) -/

/-- A JSON-like value, the result of parsing a legacy result file. -/
inductive JValue where
  | null
  | jint (n : Int)
  | jbool (b : Bool)
  | jstr (s : String)
  | jdict (entries : List (String × JValue))
  | jlist (l : List JValue)

/-- Looking up a key in an association list yields a structurally smaller
value, justifying the recursion of `read_version`. -/
theorem alFind_sizeOf {β : Type} [SizeOf β] :
    ∀ (es : List (String × β)) (k : String) (v : β),
      alFind es k = some v → sizeOf v < sizeOf es := by
  intro es k v h
  induction es with
  | nil => simp [alFind] at h
  | cons kv rest ih =>
      obtain ⟨k1, v1⟩ := kv
      by_cases hk : k1 = k
      · simp [alFind, hk] at h
        subst h
        simp
        omega
      · simp [alFind, hk] at h
        have := ih h
        simp
        omega

/-- The inner `read_version` of `triage._find_version`: look for
`"__version__"` directly, then inside `"__attrs__"`, then inside
`"attributes"` (the `hasattr(item, "attrs")` branch concerns h5py/zarr
handles, which do not occur in parsed JSON data); non-mapping values hold no
version. -/
def read_version : JValue → Option JValue
  | .jdict es =>
      match h1 : alFind es "__version__" with
      | some v => some v
      | none =>
          match h2 : alFind es "__attrs__" with
          | some a => read_version a
          | none =>
              match h3 : alFind es "attributes" with
              | some a => read_version a
              | none => none
  | _ => none
termination_by v => sizeOf v
decreasing_by
  · have := alFind_sizeOf es "__attrs__" a h2
    simp
    omega
  · have := alFind_sizeOf es "attributes" a h3
    simp
    omega

/-- `json.loads` restricted to the payloads relevant for version attributes:
integer literals and the JSON constants; anything else raises. -/
def jsonLoads (s : String) : Except Err JValue :=
  match s.toInt? with
  | some n => .ok (.jint n)
  | none =>
      if s = "null" then .ok .null
      else if s = "true" then .ok (.jbool true)
      else if s = "false" then .ok (.jbool false)
      else .error .valueError

/-- `triage._find_version`: try the data itself, then `data[label]`, then
`data["state"]` (membership tests only apply to mappings here), and decode a
string result with `json.loads`. -/
def find_version (data : JValue) (label : String) :
    Except Err (Option JValue) :=
  let fv0 := read_version data
  let fv1 := match fv0, data with
    | none, .jdict es =>
        (match alFind es label with
         | some item => read_version item
         | none => none)
    | v, _ => v
  let fv2 := match fv1, data with
    | none, .jdict es =>
        (match alFind es "state" with
         | some item => read_version item
         | none => none)
    | v, _ => v
  match fv2 with
  | some (.jstr s) =>
      (match jsonLoads s with
       | .ok v => .ok (some v)
       | .error e => .error e)
  | v => .ok v

/-- What `result_check_load_old_version` does once the format version has
been determined. -/
inductive LoadAction where
  | loadV0
  | loadV1
  | noResult
deriving DecidableEq, Repr

/-- The dispatch at the end of `result_check_load_old_version` (triage.py
lines 159-174): `format_version in {0, None}` loads with the version-0
reader, `== 1` with the version-1 reader, any other int returns no result,
and a non-int version is a `RuntimeError`.  Python booleans compare equal to
the ints 0/1, hence the `jbool` arm. -/
def triage_dispatch (fv : Option JValue) : Except Err LoadAction :=
  match fv with
  | none => .ok .loadV0
  | some (.jint n) =>
      if n = 0 then .ok .loadV0
      else if n = 1 then .ok .loadV1
      else .ok .noResult
  | some (.jbool b) => if b then .ok .loadV1 else .ok .loadV0
  | some _ => .error .runtimeError

/-- The JSON branch of `result_check_load_old_version` after the file has
been parsed: find the version, then dispatch. -/
def result_check_load_json (data : JValue) (label : String) :
    Except Err LoadAction :=
  match find_version data label with
  | .ok fv => triage_dispatch fv
  | .error e => .error e

/-! ## Association-list lemmas -/

theorem alFind_alSet_self {β : Type} (es : List (String × β)) (k : String) (v : β) :
    alFind (alSet es k v) k = some v := by
  induction es with
  | nil => simp [alSet, alFind]
  | cons kv rest ih =>
      obtain ⟨k1, v1⟩ := kv
      by_cases hk : k1 = k
      · simp [alSet, alFind, hk]
      · simp [alSet, alFind, hk, ih]

theorem alFind_alSet_ne {β : Type} (es : List (String × β)) (k k' : String)
    (v : β) (h : k' ≠ k) : alFind (alSet es k v) k' = alFind es k' := by
  have hne : k ≠ k' := fun hh => h hh.symm
  induction es with
  | nil => simp [alSet, alFind, hne]
  | cons kv rest ih =>
      obtain ⟨k1, v1⟩ := kv
      by_cases hk : k1 = k
      · subst hk
        simp only [alSet, if_pos rfl, alFind]
        rw [if_neg (fun hh => h hh.symm)]
        rw [if_neg (fun hh => h hh.symm)]
      · simp only [alSet, if_neg hk, alFind]
        by_cases hk' : k1 = k'
        · rw [if_pos hk', if_pos hk']
        · rw [if_neg hk', if_neg hk', ih]

theorem alSet_eq_of_find {β : Type} (es : List (String × β)) (k : String) (v : β)
    (h : alFind es k = some v) : alSet es k v = es := by
  induction es with
  | nil => simp [alFind] at h
  | cons kv rest ih =>
      obtain ⟨k1, v1⟩ := kv
      by_cases hk : k1 = k
      · simp [alFind, hk] at h
        simp [alSet, hk, h]
      · simp [alFind, hk] at h
        simp [alSet, hk, ih h]

theorem alFind_isSome_of_mem_fst {β : Type} (es : List (String × β)) (k : String)
    (h : k ∈ es.map Prod.fst) : (alFind es k).isSome := by
  induction es with
  | nil => simp at h
  | cons kv rest ih =>
      obtain ⟨k1, v1⟩ := kv
      by_cases hk : k1 = k
      · simp [alFind, hk]
      · simp only [List.map_cons, List.mem_cons] at h
        rcases h with h | h
        · exact absurd h.symm hk
        · simp only [alFind, if_neg hk]
          exact ih h

theorem mem_fst_of_alFind {β : Type} (es : List (String × β)) (k : String) (v : β)
    (h : alFind es k = some v) : k ∈ es.map Prod.fst := by
  induction es with
  | nil => simp [alFind] at h
  | cons kv rest ih =>
      obtain ⟨k1, v1⟩ := kv
      by_cases hk : k1 = k
      · simp [hk]
      · simp only [alFind, if_neg hk] at h
        simp only [List.map_cons, List.mem_cons]
        exact Or.inr (ih h)

theorem contains_filteredKeys (es : Dict) (k : String) (v : MemValue)
    (hf : alFind es k = some v) (hk : isReserved k = false) :
    (filteredKeys es).contains k = true := by
  have hmem : k ∈ filteredKeys es := by
    apply List.mem_filter.mpr
    exact ⟨mem_fst_of_alFind es k v hf, by simp [hk]⟩
  exact List.elem_iff.mpr hmem

theorem of_contains_filteredKeys (es : Dict) (k : String)
    (h : (filteredKeys es).contains k = true) :
    (alFind es k).isSome ∧ isReserved k = false := by
  have hmem : k ∈ filteredKeys es := List.elem_iff.mp h
  have := List.mem_filter.mp hmem
  exact ⟨alFind_isSome_of_mem_fst es k this.1, by simpa using this.2⟩

theorem getLastD_eq_getLast (l : List String) (h : l ≠ []) :
    l.getLastD "" = l.getLast h := by
  cases l with
  | nil => exact absurd rfl h
  | cons a rest => simp [List.getLastD_eq_getLast?, List.getLast?_eq_getLast]

theorem dropLast_append_getLastD (l : List String) (h : l ≠ []) :
    l.dropLast ++ [l.getLastD ""] = l := by
  rw [getLastD_eq_getLast l h]
  exact List.dropLast_append_getLast h

/-! ## Pure path resolution and subtree replacement -/

/-- Pure lookup along a path in the tree, with no side effects: the location
resolves exactly when every segment descends through an existing dict entry. -/
def resolvePath : MemValue → List String → Option MemValue
  | v, [] => some v
  | .dict es, p :: rest =>
      (match alFind es p with
       | some v1 => resolvePath v1 rest
       | none => none)
  | _, _ :: _ => none

/-- Replace the subtree at a path that resolves; on paths that do not
resolve the tree is returned unchanged (those cases are never used). -/
def setPath : MemValue → List String → MemValue → MemValue
  | _, [], w => w
  | .dict es, p :: rest, w =>
      (match alFind es p with
       | some v1 => .dict (alSet es p (setPath v1 rest w))
       | none => .dict es)
  | v, _ :: _, _ => v

theorem resolvePath_append (l : List String) :
    ∀ (m : MemValue) (k : String) (v : MemValue),
      resolvePath m (l ++ [k]) = some v →
      ∃ es, resolvePath m l = some (.dict es) ∧ alFind es k = some v := by
  induction l with
  | nil =>
      intro m k v h
      cases m with
      | dict es =>
          simp only [List.nil_append, resolvePath] at h
          cases hf : alFind es k with
          | none => rw [hf] at h; simp at h
          | some v1 =>
              rw [hf] at h
              simp [resolvePath] at h
              exact ⟨es, rfl, by rw [hf, h]⟩
      | str s => simp [resolvePath] at h
      | boolV b => simp [resolvePath] at h
      | enc t p => simp [resolvePath] at h
      | ndarr a => simp [resolvePath] at h
      | dynlist dl => simp [resolvePath] at h
      | shapeV s => simp [resolvePath] at h
      | dtypeV s => simp [resolvePath] at h
      | objV p => simp [resolvePath] at h
  | cons p l2 ih =>
      intro m k v h
      cases m with
      | dict es =>
          simp only [List.cons_append, resolvePath] at h
          cases hf : alFind es p with
          | none => rw [hf] at h; simp at h
          | some v1 =>
              rw [hf] at h
              obtain ⟨es2, h1, h2⟩ := ih v1 k v h
              exact ⟨es2, by simp [resolvePath, hf, h1], h2⟩
      | str s => simp [resolvePath] at h
      | boolV b => simp [resolvePath] at h
      | enc t pp => simp [resolvePath] at h
      | ndarr a => simp [resolvePath] at h
      | dynlist dl => simp [resolvePath] at h
      | shapeV s => simp [resolvePath] at h
      | dtypeV s => simp [resolvePath] at h
      | objV pp => simp [resolvePath] at h

theorem resolvePath_snoc (l : List String) :
    ∀ (m : MemValue) (es : Dict) (k : String) (v : MemValue),
      resolvePath m l = some (.dict es) → alFind es k = some v →
      resolvePath m (l ++ [k]) = some v := by
  induction l with
  | nil =>
      intro m es k v h hf
      simp [resolvePath] at h
      subst h
      simp [resolvePath, hf]
  | cons p l2 ih =>
      intro m es k v h hf
      cases m with
      | dict es0 =>
          simp only [resolvePath] at h
          cases hfp : alFind es0 p with
          | none => rw [hfp] at h; simp at h
          | some v1 =>
              rw [hfp] at h
              simp only [List.cons_append, resolvePath, hfp]
              exact ih v1 es k v h hf
      | str s => simp [resolvePath] at h
      | boolV b => simp [resolvePath] at h
      | enc t pp => simp [resolvePath] at h
      | ndarr a => simp [resolvePath] at h
      | dynlist dl => simp [resolvePath] at h
      | shapeV s => simp [resolvePath] at h
      | dtypeV s => simp [resolvePath] at h
      | objV pp => simp [resolvePath] at h

theorem setPath_resolve_id (l : List String) :
    ∀ (m w : MemValue), resolvePath m l = some w → setPath m l w = m := by
  induction l with
  | nil =>
      intro m w h
      simp [resolvePath] at h
      simp [setPath, h]
  | cons p l2 ih =>
      intro m w h
      cases m with
      | dict es =>
          simp only [resolvePath] at h
          cases hf : alFind es p with
          | none => rw [hf] at h; simp at h
          | some v1 =>
              rw [hf] at h
              simp [setPath, hf, ih v1 w h, alSet_eq_of_find es p v1 hf]
      | str s => simp [resolvePath] at h
      | boolV b => simp [resolvePath] at h
      | enc t pp => simp [resolvePath] at h
      | ndarr a => simp [resolvePath] at h
      | dynlist dl => simp [resolvePath] at h
      | shapeV s => simp [resolvePath] at h
      | dtypeV s => simp [resolvePath] at h
      | objV pp => simp [resolvePath] at h

theorem resolvePath_setPath_self (l : List String) :
    ∀ (m w0 w : MemValue), resolvePath m l = some w0 →
      resolvePath (setPath m l w) l = some w := by
  induction l with
  | nil => intro m w0 w _; simp [resolvePath, setPath]
  | cons p l2 ih =>
      intro m w0 w h
      cases m with
      | dict es =>
          simp only [resolvePath] at h
          cases hf : alFind es p with
          | none => rw [hf] at h; simp at h
          | some v1 =>
              rw [hf] at h
              simp [setPath, hf, resolvePath, alFind_alSet_self, ih v1 w0 w h]
      | str s => simp [resolvePath] at h
      | boolV b => simp [resolvePath] at h
      | enc t pp => simp [resolvePath] at h
      | ndarr a => simp [resolvePath] at h
      | dynlist dl => simp [resolvePath] at h
      | shapeV s => simp [resolvePath] at h
      | dtypeV s => simp [resolvePath] at h
      | objV pp => simp [resolvePath] at h

/-! ## Lemmas about the `_get_parent` walk -/

theorem getParentOp_root_dict {α : Type} (ov cw : Bool)
    (op : Dict → String → Except Err α × Dict) (d : Dict) (loc : List String) :
    ∃ r es, getParentOp ov cw op (.dict d) loc = (r, .dict es) := by
  cases loc with
  | nil => exact ⟨.error .keyError, d, rfl⟩
  | cons p rest =>
      cases rest with
      | nil =>
          by_cases h : cw && !ov && alHas d p
          · exact ⟨.error .accessError, d, by simp [getParentOp, h]⟩
          · exact ⟨(op d p).1, (op d p).2, by simp [getParentOp, h]⟩
      | cons q rest2 =>
          cases hf : alFind d p with
          | some v1 =>
              exact ⟨(getParentOp ov cw op v1 (q :: rest2)).1,
                alSet d p (getParentOp ov cw op v1 (q :: rest2)).2,
                by simp [getParentOp, hf]⟩
          | none =>
              exact ⟨(getParentOp ov cw op (.dict []) (q :: rest2)).1,
                alSet d p (getParentOp ov cw op (.dict []) (q :: rest2)).2,
                by simp [getParentOp, hf]⟩

theorem runParent_eq {α : Type} (ov cw : Bool)
    (op : Dict → String → Except Err α × Dict) (d : Dict) (loc : List String)
    (r : Except Err α) (es : Dict)
    (h : getParentOp ov cw op (.dict d) loc = (r, .dict es)) :
    runParent ov cw op d loc = (r, es) := by
  simp [runParent, h]

/-- Walking to a parent that purely resolves: the walk reaches exactly that
parent, performs the `check_write` test there, and the only state change is
the one `op` makes at the parent. -/
theorem walk_at_parent {α : Type} (ov cw : Bool)
    (op : Dict → String → Except Err α × Dict) (last : String) :
    ∀ (front : List String) (m : MemValue) (es0 : Dict),
      resolvePath m front = some (.dict es0) →
      getParentOp ov cw op m (front ++ [last]) =
        if cw && !ov && alHas es0 last then (.error .accessError, m)
        else ((op es0 last).1, setPath m front (.dict (op es0 last).2)) := by
  intro front
  induction front with
  | nil =>
      intro m es0 h
      simp [resolvePath] at h
      subst h
      by_cases hc : cw && !ov && alHas es0 last
      · simp [getParentOp, hc]
      · simp [getParentOp, hc, setPath]
  | cons p front2 ih =>
      intro m es0 h
      cases m with
      | dict es =>
          simp only [resolvePath] at h
          cases hf : alFind es p with
          | none => rw [hf] at h; simp at h
          | some v1 =>
              rw [hf] at h
              obtain ⟨q, rest, heq⟩ : ∃ q rest, front2 ++ [last] = q :: rest := by
                cases front2 with
                | nil => exact ⟨last, [], rfl⟩
                | cons x xs => exact ⟨x, xs ++ [last], rfl⟩
              have hgoal : p :: front2 ++ [last] = p :: q :: rest := by
                simp [heq]
              rw [hgoal]
              simp only [getParentOp, hf]
              rw [← heq, ih v1 es0 h]
              by_cases hc : cw && !ov && alHas es0 last
              · rw [if_pos hc, if_pos hc]
                simp [alSet_eq_of_find es p v1 hf]
              · rw [if_neg hc, if_neg hc]
                simp [setPath, hf]
      | str s => simp [resolvePath] at h
      | boolV b => simp [resolvePath] at h
      | enc t pp => simp [resolvePath] at h
      | ndarr a => simp [resolvePath] at h
      | dynlist dl => simp [resolvePath] at h
      | shapeV s => simp [resolvePath] at h
      | dtypeV s => simp [resolvePath] at h
      | objV pp => simp [resolvePath] at h

/-- A successful assignment-style walk leaves the assigned item at the
location, regardless of which intermediate groups it had to create. -/
theorem walk_assign_resolve (ov cw : Bool)
    (op : Dict → String → Except Err Unit × Dict)
    (P : MemValue → Prop)
    (hop : ∀ es n, (op es n).1 = .ok () →
      ∃ item, (op es n).2 = alSet es n item ∧ P item) :
    ∀ (loc : List String) (m m' : MemValue),
      getParentOp ov cw op m loc = (.ok (), m') →
      ∃ item, P item ∧ resolvePath m' loc = some item := by
  intro loc
  induction loc with
  | nil =>
      intro m m' h
      cases m <;> simp [getParentOp] at h
  | cons p rest ih =>
      intro m m' h
      cases rest with
      | nil =>
          cases m with
          | dict es =>
              by_cases hc : cw && !ov && alHas es p
              · simp [getParentOp, hc] at h
              · rcases hopres : op es p with ⟨r1, es1⟩
                simp only [getParentOp] at h
                rw [if_neg hc, hopres] at h
                have h1 : r1 = .ok () := congrArg Prod.fst h
                have h2 : MemValue.dict es1 = m' := congrArg Prod.snd h
                obtain ⟨item, hset, hP⟩ := hop es p (by rw [hopres, h1])
                rw [hopres] at hset
                refine ⟨item, hP, ?_⟩
                rw [← h2]
                simp only at hset
                rw [hset]
                simp [resolvePath, alFind_alSet_self]
          | str s => simp [getParentOp] at h
          | boolV b => simp [getParentOp] at h
          | enc t pp => simp [getParentOp] at h
          | ndarr a => simp [getParentOp] at h
          | dynlist dl => simp [getParentOp] at h
          | shapeV s => simp [getParentOp] at h
          | dtypeV s => simp [getParentOp] at h
          | objV pp => simp [getParentOp] at h
      | cons q rest2 =>
          cases m with
          | dict es =>
              cases hf : alFind es p with
              | some v1 =>
                  rcases hsub : getParentOp ov cw op v1 (q :: rest2) with ⟨r1, m1⟩
                  simp only [getParentOp, hf, hsub] at h
                  have h1 : r1 = .ok () := congrArg Prod.fst h
                  have h2 : MemValue.dict (alSet es p m1) = m' := congrArg Prod.snd h
                  obtain ⟨item, hP, hres⟩ := ih v1 m1 (by rw [hsub, h1])
                  refine ⟨item, hP, ?_⟩
                  rw [← h2]
                  simp [resolvePath, alFind_alSet_self, hres]
              | none =>
                  rcases hsub : getParentOp ov cw op (.dict []) (q :: rest2) with ⟨r1, m1⟩
                  simp only [getParentOp, hf, hsub] at h
                  have h1 : r1 = .ok () := congrArg Prod.fst h
                  have h2 : MemValue.dict (alSet es p m1) = m' := congrArg Prod.snd h
                  obtain ⟨item, hP, hres⟩ := ih (.dict []) m1 (by rw [hsub, h1])
                  refine ⟨item, hP, ?_⟩
                  rw [← h2]
                  simp [resolvePath, alFind_alSet_self, hres]
          | str s => simp [getParentOp] at h
          | boolV b => simp [getParentOp] at h
          | enc t pp => simp [getParentOp] at h
          | ndarr a => simp [getParentOp] at h
          | dynlist dl => simp [getParentOp] at h
          | shapeV s => simp [getParentOp] at h
          | dtypeV s => simp [getParentOp] at h
          | objV pp => simp [getParentOp] at h

/-- A lookup walk that returns successfully made no state change and its
result is the pure resolution of the location. -/
theorem walk_lookup_ok :
    ∀ (loc : List String) (m m' v : MemValue),
      getParentOp false false lookupOp m loc = (.ok v, m') →
      m' = m ∧ resolvePath m loc = some v := by
  intro loc
  induction loc with
  | nil =>
      intro m m' v h
      cases m <;> simp [getParentOp] at h
  | cons p rest ih =>
      intro m m' v h
      cases rest with
      | nil =>
          cases m with
          | dict es =>
              cases hf : alFind es p with
              | some w =>
                  simp only [getParentOp, lookupOp, hf] at h
                  rw [if_neg (by simp)] at h
                  have h1 : Except.ok (ε := Err) w = .ok v := congrArg Prod.fst h
                  have h2 : MemValue.dict es = m' := congrArg Prod.snd h
                  cases h1
                  exact ⟨h2.symm, by simp [resolvePath, hf]⟩
              | none =>
                  simp only [getParentOp, lookupOp, hf] at h
                  rw [if_neg (by simp)] at h
                  have h1 : Except.error (α := MemValue) Err.keyError = .ok v :=
                    congrArg Prod.fst h
                  simp at h1
          | str s => simp [getParentOp] at h
          | boolV b => simp [getParentOp] at h
          | enc t pp => simp [getParentOp] at h
          | ndarr a => simp [getParentOp] at h
          | dynlist dl => simp [getParentOp] at h
          | shapeV s => simp [getParentOp] at h
          | dtypeV s => simp [getParentOp] at h
          | objV pp => simp [getParentOp] at h
      | cons q rest2 =>
          cases m with
          | dict es =>
              cases hf : alFind es p with
              | some v1 =>
                  rcases hsub : getParentOp false false lookupOp v1 (q :: rest2) with ⟨r1, m1⟩
                  simp only [getParentOp, hf, hsub] at h
                  have h1 : r1 = .ok v := congrArg Prod.fst h
                  have h2 : MemValue.dict (alSet es p m1) = m' := congrArg Prod.snd h
                  obtain ⟨hm1, hres⟩ := ih v1 m1 v (by rw [hsub, h1])
                  constructor
                  · rw [← h2, hm1, alSet_eq_of_find es p v1 hf]
                  · simp [resolvePath, hf, hres]
              | none =>
                  rcases hsub : getParentOp false false lookupOp (.dict []) (q :: rest2) with ⟨r1, m1⟩
                  simp only [getParentOp, hf, hsub] at h
                  have h1 : r1 = .ok v := congrArg Prod.fst h
                  obtain ⟨hm1, hres⟩ := ih (.dict []) m1 v (by rw [hsub, h1])
                  simp [resolvePath, alFind] at hres
          | str s => simp [getParentOp] at h
          | boolV b => simp [getParentOp] at h
          | enc t pp => simp [getParentOp] at h
          | ndarr a => simp [getParentOp] at h
          | dynlist dl => simp [getParentOp] at h
          | shapeV s => simp [getParentOp] at h
          | dtypeV s => simp [getParentOp] at h
          | objV pp => simp [getParentOp] at h

theorem isEmpty_false_of_ne {γ : Type} (l : List γ) (h : l ≠ []) :
    l.isEmpty = false := by
  cases l with
  | nil => exact absurd rfl h
  | cons a rest => rfl

/-- Reading a location that purely resolves returns its value and leaves the
store unchanged. -/
theorem getitem_of_resolve (d : Dict) (loc : List String) (v : MemValue)
    (hne : loc ≠ []) (h : resolvePath (.dict d) loc = some v) :
    getitem d loc = (.ok v, d) := by
  have hsplit := dropLast_append_getLastD loc hne
  rw [← hsplit] at h
  obtain ⟨es0, hres, hfind⟩ := resolvePath_append loc.dropLast (.dict d) (loc.getLastD "") v h
  have hwalk := walk_at_parent false false lookupOp (loc.getLastD "") loc.dropLast (.dict d) es0 hres
  rw [if_neg (by simp)] at hwalk
  have hop : lookupOp es0 (loc.getLastD "") = (.ok v, es0) := by
    unfold lookupOp
    rw [hfind]
  rw [hop] at hwalk
  simp only [setPath_resolve_id loc.dropLast (.dict d) (.dict es0) hres] at hwalk
  rw [hsplit] at hwalk
  have hie := isEmpty_false_of_ne loc hne
  simp only [getitem, hie, Bool.false_eq_true, if_false]
  exact runParent_eq false false lookupOp d loc (.ok v) d hwalk

/-- A successful `__getitem__` on a non-empty location made no state change
and returned the pure resolution of the location. -/
theorem getitem_ok_pure (d : Dict) (loc : List String) (w : MemValue) (dg : Dict)
    (hne : loc ≠ []) (h : getitem d loc = (.ok w, dg)) :
    dg = d ∧ resolvePath (.dict d) loc = some w := by
  have hie := isEmpty_false_of_ne loc hne
  simp only [getitem, hie, Bool.false_eq_true, if_false] at h
  obtain ⟨r, es, heq⟩ := getParentOp_root_dict false false lookupOp d loc
  rw [runParent_eq false false lookupOp d loc r es heq] at h
  have h1 : r = .ok w := congrArg Prod.fst h
  have h2 : es = dg := congrArg Prod.snd h
  rw [h1, h2] at heq
  obtain ⟨hm, hres⟩ := walk_lookup_ok loc (.dict d) (.dict dg) w heq
  have : dg = d := by
    have := hm
    injection this
  exact ⟨this, hres⟩

/-- A location that purely resolves, whose final segment is not reserved,
tests as contained, without changing the store. -/
theorem contains_of_resolve (d : Dict) (loc : List String) (v : MemValue)
    (hne : loc ≠ []) (hdun : isReserved (loc.getLastD "") = false)
    (h : resolvePath (.dict d) loc = some v) :
    contains d loc = (.ok true, d) := by
  have hsplit := dropLast_append_getLastD loc hne
  rw [← hsplit] at h
  obtain ⟨es0, hres, hfind⟩ := resolvePath_append loc.dropLast (.dict d) (loc.getLastD "") v h
  have hie := isEmpty_false_of_ne loc hne
  have hkeys : keys d loc.dropLast = (.ok (filteredKeys es0), d) := by
    by_cases hfe : loc.dropLast = []
    · rw [hfe] at hres ⊢
      simp only [resolvePath, Option.some.injEq] at hres
      have hd : d = es0 := by injection hres with hh
      subst hd
      simp [keys]
    · have hgi := getitem_of_resolve d loc.dropLast (.dict es0) hfe hres
      have hie2 := isEmpty_false_of_ne loc.dropLast hfe
      simp [keys, hie2, hgi]
  simp only [contains, hie, Bool.false_eq_true, if_false, hkeys]
  rw [contains_filteredKeys es0 (loc.getLastD "") v hfind hdun]

/-- A `True` membership test on a non-empty location made no state change and
implies that the location purely resolves through the parent's (unfiltered)
entries, with a non-reserved final segment. -/
theorem contains_true_elim (d : Dict) (loc : List String) (d1 : Dict)
    (hne : loc ≠ []) (h : contains d loc = (.ok true, d1)) :
    d1 = d ∧ ∃ es0 v, resolvePath (.dict d) loc.dropLast = some (.dict es0) ∧
      alFind es0 (loc.getLastD "") = some v ∧
      isReserved (loc.getLastD "") = false := by
  have hie := isEmpty_false_of_ne loc hne
  simp only [contains, hie, Bool.false_eq_true, if_false] at h
  rcases hk : keys d loc.dropLast with ⟨kr, dk⟩
  rw [hk] at h
  cases kr with
  | ok ks =>
      simp only at h
      have h1 : ks.contains (loc.getLastD "") = true := by
        have := congrArg Prod.fst h
        simpa using this
      have h2 : dk = d1 := congrArg Prod.snd h
      by_cases hfe : loc.dropLast = []
      · rw [hfe] at hk
        simp only [keys, List.isEmpty_nil, if_true] at hk
        have hks : filteredKeys d = ks := by
          have := congrArg Prod.fst hk
          simpa using this
        have hdk : d = dk := congrArg Prod.snd hk
        rw [← hks] at h1
        obtain ⟨hsome, hdun⟩ := of_contains_filteredKeys d (loc.getLastD "") h1
        obtain ⟨v, hv⟩ := Option.isSome_iff_exists.mp hsome
        exact ⟨by rw [← h2, ← hdk], d, v, by rw [hfe]; simp [resolvePath], hv, hdun⟩
      · have hie2 := isEmpty_false_of_ne loc.dropLast hfe
        simp only [keys, hie2, Bool.false_eq_true, if_false] at hk
        rcases hg : getitem d loc.dropLast with ⟨gr, dg⟩
        rw [hg] at hk
        cases gr with
        | ok w =>
            cases w with
            | dict es =>
                simp only at hk
                have hks : filteredKeys es = ks := by
                  have := congrArg Prod.fst hk
                  simpa using this
                have hdg : dg = dk := congrArg Prod.snd hk
                obtain ⟨hdgd, hres⟩ := getitem_ok_pure d loc.dropLast (.dict es) dg hfe hg
                rw [← hks] at h1
                obtain ⟨hsome, hdun⟩ := of_contains_filteredKeys es (loc.getLastD "") h1
                obtain ⟨v, hv⟩ := Option.isSome_iff_exists.mp hsome
                exact ⟨by rw [← h2, ← hdg, hdgd], es, v, hres, hv, hdun⟩
            | str s => simp at hk
            | boolV b => simp at hk
            | enc t pp => simp at hk
            | ndarr a => simp at hk
            | dynlist dl => simp at hk
            | shapeV s => simp at hk
            | dtypeV s => simp at hk
            | objV pp => simp at hk
        | error e => simp at hk
  | error e =>
      cases e <;> simp at h

/-- A successful assignment-style `runParent` leaves the assigned item at the
location. -/
theorem runParent_assign_resolve (ov cw : Bool)
    (op : Dict → String → Except Err Unit × Dict) (P : MemValue → Prop)
    (hop : ∀ es n, (op es n).1 = .ok () →
      ∃ item, (op es n).2 = alSet es n item ∧ P item)
    (d d1 : Dict) (loc : List String)
    (h : runParent ov cw op d loc = (.ok (), d1)) :
    ∃ item, P item ∧ resolvePath (.dict d1) loc = some item := by
  obtain ⟨r, es, heq⟩ := getParentOp_root_dict ov cw op d loc
  rw [runParent_eq ov cw op d loc r es heq] at h
  have h1 : r = .ok () := congrArg Prod.fst h
  have h2 : es = d1 := congrArg Prod.snd h
  rw [h1, h2] at heq
  exact walk_assign_resolve ov cw op P hop loc (.dict d) (.dict d1) heq

theorem setPath_dict_of_dict (front : List String) (d : Dict) (es1 : Dict) :
    ∃ es2 : Dict, setPath (.dict d) front (.dict es1) = .dict es2 := by
  cases front with
  | nil => exact ⟨es1, rfl⟩
  | cons p front2 =>
      cases hf : alFind d p with
      | some v1 => exact ⟨alSet d p (setPath v1 front2 (.dict es1)), by simp [setPath, hf]⟩
      | none => exact ⟨d, by simp [setPath, hf]⟩

/-- Running a parent operation along a purely resolving front: the walk
reaches the parent entries, applies `op` there, and the new store is the old
one with the parent dict replaced. -/
theorem runParent_at_parent {α : Type} (ov cw : Bool)
    (op : Dict → String → Except Err α × Dict)
    (d : Dict) (front : List String) (last : String) (es0 : Dict)
    (hres : resolvePath (.dict d) front = some (.dict es0))
    (hc : (cw && !ov && alHas es0 last) = false) :
    ∃ d2, runParent ov cw op d (front ++ [last]) = ((op es0 last).1, d2) ∧
      MemValue.dict d2 = setPath (.dict d) front (.dict (op es0 last).2) := by
  have hwalk := walk_at_parent ov cw op last front (.dict d) es0 hres
  rw [if_neg (by simp [hc])] at hwalk
  obtain ⟨es2, hsp⟩ := setPath_dict_of_dict front d (op es0 last).2
  rw [hsp] at hwalk
  exact ⟨es2, runParent_eq ov cw op d (front ++ [last]) _ es2 hwalk, by rw [hsp]⟩

/-- `_write_item_attrs` with no attributes, no kind tag and no class writes
nothing, but only after the `set_attrs` capability check has passed. -/
theorem write_item_attrs_trivial (m : AccessMode) (d : Dict) (loc : List String)
    (u : Unit) (d2 : Dict)
    (h : write_item_attrs m d loc none none none = (.ok u, d2)) :
    m.set_attrs = true ∧ d2 = d := by
  unfold write_item_attrs write_attrs at h
  cases hsa : m.set_attrs with
  | false => rw [hsa] at h; simp at h
  | true =>
      rw [hsa] at h
      simp only [Option.getD, Bool.not_true, Bool.false_eq_true, if_false] at h
      have h2 : d = d2 := congrArg Prod.snd h
      exact ⟨rfl, h2.symm⟩

theorem memCreateGroup_resolve (m : AccessMode) (d : Dict) (loc : List String)
    (d1 : Dict) (h : memCreateGroup m d loc = (.ok (), d1)) :
    resolvePath (.dict d1) loc = some (.dict []) := by
  unfold memCreateGroup at h
  obtain ⟨item, hP, hres⟩ := runParent_assign_resolve m.overwrite true _
    (fun item => item = MemValue.dict [])
    (fun es n _ => ⟨.dict [], rfl, rfl⟩) d d1 loc h
  rw [hP] at hres
  exact hres

/-- The creation loop of `create_group`, run over a list of prefixes ending
in the target location, leaves a node at the target. -/
theorem createPrefixes_final (m : AccessMode) (loc : List String)
    (hne : loc ≠ []) :
    ∀ (ps : List (List String)) (d0 d1 : Dict),
      createPrefixes m d0 (ps ++ [loc]) = (.ok (), d1) →
      ∃ v, resolvePath (.dict d1) loc = some v := by
  intro ps
  induction ps with
  | nil =>
      intro d0 d1 h
      simp only [List.nil_append, createPrefixes] at h
      rcases hc : contains d0 loc with ⟨cr, dc⟩
      rw [hc] at h
      cases cr with
      | ok b =>
          cases b with
          | true =>
              simp only [createPrefixes] at h
              have hd1 : dc = d1 := congrArg Prod.snd h
              obtain ⟨hdc, es0, v, hres, hfind, _⟩ :=
                contains_true_elim d0 loc dc hne hc
              refine ⟨v, ?_⟩
              rw [← hd1, hdc]
              rw [← dropLast_append_getLastD loc hne]
              exact resolvePath_snoc loc.dropLast (.dict d0) es0 (loc.getLastD "") v hres hfind
          | false =>
              simp only at h
              rcases hg : memCreateGroup m dc loc with ⟨gr, dg⟩
              rw [hg] at h
              cases gr with
              | ok u =>
                  simp only [createPrefixes] at h
                  have hd1 : dg = d1 := congrArg Prod.snd h
                  rw [← hd1]
                  exact ⟨.dict [], memCreateGroup_resolve m dc loc dg hg⟩
              | error e => simp at h
      | error e => simp at h
  | cons p ps2 ih =>
      intro d0 d1 h
      simp only [List.cons_append, createPrefixes] at h
      rcases hc : contains d0 p with ⟨cr, dc⟩
      rw [hc] at h
      cases cr with
      | ok b =>
          cases b with
          | true => exact ih dc d1 h
          | false =>
              simp only at h
              rcases hg : memCreateGroup m dc p with ⟨gr, dg⟩
              rw [hg] at h
              cases gr with
              | ok u => exact ih dg d1 h
              | error e => simp at h
      | error e => simp at h

theorem locPrefixes_snoc (loc : List String) (hne : loc ≠ []) :
    ∃ ps, locPrefixes loc = ps ++ [loc] := by
  obtain ⟨k, hk⟩ : ∃ k, loc.length = k + 1 := by
    cases loc with
    | nil => exact absurd rfl hne
    | cons a rest => exact ⟨rest.length, rfl⟩
  refine ⟨(List.range k).map fun i => loc.take (i + 1), ?_⟩
  unfold locPrefixes
  rw [hk, List.range_succ, List.map_append]
  simp [hk ▸ List.take_length loc]

theorem memWriteArray_resolve (m : AccessMode) (d : Dict) (loc : List String)
    (arr : NDArray) (d2 : Dict) (h : memWriteArray m d loc arr = (.ok (), d2)) :
    resolvePath (.dict d2) loc = some (.dict [("data", .ndarr arr)]) := by
  unfold memWriteArray at h
  obtain ⟨item, hP, hres⟩ := runParent_assign_resolve m.overwrite true _
    (fun item => item = MemValue.dict [("data", .ndarr arr)])
    (fun es n _ => ⟨_, rfl, rfl⟩) d d2 loc h
  rw [hP] at hres
  exact hres

/-- Writing one attribute at a location that resolves to an item dict:
the write succeeds and afterwards the location holds the item with its
`"__attrs__"` entry updated. -/
theorem memWriteAttr_at_resolved (d : Dict) (loc : List String) (es : Dict)
    (k : String) (v : MemValue) (hne : loc ≠ [])
    (hres : resolvePath (.dict d) loc = some (.dict es))
    (hok : (updateAttrsEntry es k v).1 = .ok ()) :
    ∃ d3, memWriteAttr d loc k v = (.ok (), d3) ∧
      resolvePath (.dict d3) loc = some (.dict (updateAttrsEntry es k v).2) := by
  have hsplit := dropLast_append_getLastD loc hne
  rw [← hsplit] at hres
  obtain ⟨es0, hfront, hfind⟩ :=
    resolvePath_append loc.dropLast (.dict d) (loc.getLastD "") _ hres
  rcases hu : updateAttrsEntry es k v with ⟨ur, ues⟩
  have hur : ur = .ok () := by rw [hu] at hok; exact hok
  subst hur
  obtain ⟨d3, hrun, hsp⟩ := runParent_at_parent false false (attrOp k v)
    d loc.dropLast (loc.getLastD "") es0 hfront (by simp)
  have hopval : attrOp k v es0 (loc.getLastD "") =
      ((.ok (), alSet es0 (loc.getLastD "") (.dict ues)) :
        Except Err Unit × Dict) := by
    simp only [attrOp, hfind, hu]
  rw [hopval] at hrun hsp
  dsimp only at hrun hsp
  refine ⟨d3, ?_, ?_⟩
  · have hie := isEmpty_false_of_ne loc hne
    simp only [memWriteAttr, hie, Bool.false_eq_true, if_false]
    rw [← hsplit]
    exact hrun
  · have hstep := resolvePath_setPath_self loc.dropLast (.dict d) (.dict es0)
      (.dict (alSet es0 (loc.getLastD "") (.dict ues))) hfront
    rw [← hsp] at hstep
    rw [← hsplit]
    exact resolvePath_snoc loc.dropLast (.dict d3) _ (loc.getLastD "")
      (.dict ues) hstep (alFind_alSet_self es0 (loc.getLastD "") (.dict ues))

theorem writeAttrsLoop_single_internal (d : Dict) (loc : List String)
    (k : String) (v : MemValue) (hk : isReserved k = true) :
    writeAttrsLoop d loc [(k, v)] =
      match memWriteAttr d loc k v with
      | (.ok _, dx) => (.ok (), dx)
      | (.error e, dx) => (.error e, dx) := by
  unfold writeAttrsLoop
  simp only [hk, if_true]
  rcases memWriteAttr d loc k v with ⟨r, dx⟩
  cases r with
  | ok u => cases u; rfl
  | error e => rfl

/-- After a successful raw array write and kind-tag write, reading the
location (default `index`/`out`/`copy`) returns exactly the written array. -/
theorem write_array_then_read (m : AccessMode) (loc : List String)
    (arr : NDArray) (d1 d2 d3 : Dict) (hne : loc ≠ [])
    (hw : memWriteArray m d1 loc arr = (.ok (), d2))
    (ha : write_item_attrs m d2 loc none (some "array") none = (.ok (), d3))
    (hr : m.read = true) :
    (read_array m d3 loc none none true).1 = .ok arr := by
  have hres2 := memWriteArray_resolve m d1 loc arr d2 hw
  have ha2 : write_attrs m d2 loc (some [("__type__", .str "array")]) =
      (.ok (), d3) := ha
  unfold write_attrs at ha2
  cases hsa : m.set_attrs with
  | false => rw [hsa] at ha2; simp at ha2
  | true =>
      rw [hsa] at ha2
      simp only [Bool.not_true, Bool.false_eq_true, if_false, List.isEmpty_cons] at ha2
      rw [writeAttrsLoop_single_internal d2 loc "__type__" (.str "array") rfl] at ha2
      obtain ⟨d3', hwattr, hres3⟩ := memWriteAttr_at_resolved d2 loc
        [("data", .ndarr arr)] "__type__" (.str "array") hne hres2 rfl
      rw [hwattr] at ha2
      have hd3 : d3' = d3 := congrArg Prod.snd ha2
      subst hd3
      have hfd : alFind (updateAttrsEntry [("data", .ndarr arr)] "__type__"
          (.str "array")).2 "data" = some (.ndarr arr) := rfl
      have hgi := getitem_of_resolve d3' loc _ hne hres3
      simp only [read_array, hr, Bool.not_true, Bool.false_eq_true, if_false,
        memReadArray, hgi, hfd, npArrayOf]

/-- Any successful `write_array` call (default attrs and class) followed by a
default read returns the written array. -/
theorem write_array_ok_read (m : AccessMode) (d : Dict) (loc : List String)
    (arr : NDArray) (d3 : Dict)
    (hw : write_array m d loc arr none none = (.ok (), d3))
    (hr : m.read = true) :
    (read_array m d3 loc none none true).1 = .ok arr := by
  unfold write_array at hw
  split at hw
  next d1 heq1 =>
    have hne : loc ≠ [] := by
      intro hl
      subst hl
      simp [check_write_access] at heq1
    split at hw
    next d2 heq2 =>
      exact write_array_then_read m loc arr d1 d2 d3 hne heq2 hw hr
    next e d2 heq2 => simp at hw
  next e d1 heq1 => simp at hw

/-- C1: for every array (0-d, 1-d or multi-dimensional) and every location
writable under the current mode, `write_array(loc, arr)` followed by
`read_array(loc)` with default copy semantics returns an array equal to
`arr` — same shape, same dtype, same elements (array equality in this value
model is exactly element-wise equality plus identical shape and dtype). -/
theorem C1_write_read_roundtrip (m : AccessMode) (d : Dict) (loc : List String)
    (arr : NDArray) (d3 : Dict)
    (hw : write_array m d loc arr none none = (.ok (), d3))
    (hr : m.read = true) :
    (read_array m d3 loc none none true).1 = .ok arr :=
  write_array_ok_read m d loc arr d3 hw hr

/-- Witness for C1: a 2×2 array written at `["a"]` on the empty store under
mode "insert" reads back unchanged. -/
theorem C1_write_read_roundtrip_witness :
    (read_array ⟨true, true, false, true, true⟩
      (write_array ⟨true, true, false, true, true⟩ [] ["a"]
        ⟨[2, 2], "float64", [1, 2, 3, 4]⟩ none none).2
      ["a"] none none true).1 = .ok ⟨[2, 2], "float64", [1, 2, 3, 4]⟩ :=
  C1_write_read_roundtrip ⟨true, true, false, true, true⟩ [] ["a"]
    ⟨[2, 2], "float64", [1, 2, 3, 4]⟩ _ rfl rfl

/-! ## Claims -/

/-- `_check_write_access` at an existing node: the outcome depends solely on
the `overwrite` capability (the in-memory backend has `can_update = True`),
and the store is unchanged. -/
theorem check_write_access_existing (m : AccessMode) (d : Dict)
    (loc : List String) (v : MemValue) (hne : loc ≠ [])
    (hdun : isReserved (loc.getLastD "") = false)
    (hres : resolvePath (.dict d) loc = some v) :
    check_write_access m d loc =
      (if m.overwrite then (.ok (), d) else (.error .accessError, d)) := by
  have hie := isEmpty_false_of_ne loc hne
  have hc := contains_of_resolve d loc v hne hdun hres
  simp only [check_write_access, hie, Bool.false_eq_true, if_false, hc]
  simp only [can_update, Bool.not_true, Bool.false_eq_true, if_false]
  cases hov : m.overwrite <;> simp [hov]

/-- Every parsed mode with the overwrite capability also carries the
`set_attrs` and `read` capabilities. -/
theorem parse_overwrite_caps (tok : String) (m : AccessMode)
    (htok : AccessMode.parse tok = some m) (hov : m.overwrite = true) :
    m.set_attrs = true ∧ m.read = true := by
  unfold AccessMode.parse at htok
  by_cases h1 : tok = "read"
  · simp only [h1, if_true, Option.some.injEq] at htok
    subst htok; simp at hov
  · simp only [h1, if_false] at htok
    by_cases h2 : tok = "readonly"
    · simp only [h2, if_true, Option.some.injEq] at htok
      subst htok; simp at hov
    · simp only [h2, if_false] at htok
      by_cases h3 : tok = "insert"
      · simp only [h3, if_true, Option.some.injEq] at htok
        subst htok; simp at hov
      · simp only [h3, if_false] at htok
        by_cases h4 : tok = "overwrite"
        · simp only [h4, if_true, Option.some.injEq] at htok
          subst htok; exact ⟨rfl, rfl⟩
        · simp only [h4, if_false] at htok
          by_cases h5 : tok = "full"
          · simp only [h5, if_true, Option.some.injEq] at htok
            subst htok; exact ⟨rfl, rfl⟩
          · simp only [h5, if_false] at htok
            exact absurd htok (by simp)

/-- Overwriting an existing node with `write_array` succeeds under
`overwrite` + `set_attrs`. -/
theorem write_array_overwrite_ok (m : AccessMode) (d : Dict)
    (loc : List String) (v : MemValue) (arr : NDArray) (hne : loc ≠ [])
    (hdun : isReserved (loc.getLastD "") = false)
    (hres : resolvePath (.dict d) loc = some v)
    (hov : m.overwrite = true) (hsa : m.set_attrs = true) :
    ∃ d3, write_array m d loc arr none none = (.ok (), d3) := by
  have hchk := check_write_access_existing m d loc v hne hdun hres
  rw [hov] at hchk
  simp only [if_true] at hchk
  have hsplit := dropLast_append_getLastD loc hne
  rw [← hsplit] at hres
  obtain ⟨es0, hfront, hfind⟩ :=
    resolvePath_append loc.dropLast (.dict d) (loc.getLastD "") v hres
  obtain ⟨d2, hrun2, hsp2⟩ := runParent_at_parent m.overwrite true
    (fun es name => (.ok (), alSet es name (.dict [("data", .ndarr arr)])))
    d loc.dropLast (loc.getLastD "") es0 hfront (by simp [hov])
  have hw2 : memWriteArray m d loc arr = (.ok (), d2) := by
    unfold memWriteArray
    rw [← hsplit]
    exact hrun2
  have hres2 := memWriteArray_resolve m d loc arr d2 hw2
  obtain ⟨d3, hwattr, hres3⟩ := memWriteAttr_at_resolved d2 loc
    [("data", .ndarr arr)] "__type__" (.str "array") hne hres2 rfl
  have ha : write_item_attrs m d2 loc none (some "array") none = (.ok (), d3) := by
    show write_attrs m d2 loc (some [("__type__", .str "array")]) = (.ok (), d3)
    unfold write_attrs
    rw [hsa]
    simp only [Bool.not_true, Bool.false_eq_true, if_false, List.isEmpty_cons]
    rw [writeAttrsLoop_single_internal d2 loc "__type__" (.str "array") rfl]
    rw [hwattr]
  refine ⟨d3, ?_⟩
  unfold write_array
  simp only [hchk, hw2, ha]

/-- C2: with a node already existing at `loc`, `write_array` raises
`AccessError` whenever the mode lacks the overwrite capability; under any
parsed mode with overwrite enabled, the same call succeeds and a subsequent
default `read_array` returns the newly written value.  (Parsed
overwrite-enabled modes always carry `set_attrs` and `read`, which the kind
tag write and the read-back require — see `parse_overwrite_caps`.) -/
theorem C2_overwrite_gate (m : AccessMode) (d : Dict) (loc : List String)
    (v : MemValue) (arr : NDArray)
    (hres : resolvePath (.dict d) loc = some v) (hne : loc ≠ [])
    (hdun : isReserved (loc.getLastD "") = false) :
    (m.overwrite = false →
      (write_array m d loc arr none none).1 = .error .accessError) ∧
    (∀ tok, AccessMode.parse tok = some m → m.overwrite = true →
      ∃ d3, write_array m d loc arr none none = (.ok (), d3) ∧
        (read_array m d3 loc none none true).1 = .ok arr) := by
  constructor
  · intro hov
    have hchk := check_write_access_existing m d loc v hne hdun hres
    rw [hov] at hchk
    simp only [Bool.false_eq_true, if_false] at hchk
    unfold write_array
    simp only [hchk]
  · intro tok htok hov
    obtain ⟨hsa, hrd⟩ := parse_overwrite_caps tok m htok hov
    obtain ⟨d3, hw⟩ := write_array_overwrite_ok m d loc v arr hne hdun hres hov hsa
    exact ⟨d3, hw, write_array_ok_read m d loc arr d3 hw hrd⟩

/-- Witness for C2: a store holding the array node `"a"`; under mode
"insert" overwriting it raises `AccessError`, under mode "overwrite" the new
array is written and read back. -/
theorem C2_overwrite_gate_witness :
    ((write_array ⟨true, true, false, true, true⟩
      [("a", MemValue.dict [("data",
        MemValue.ndarr ⟨[1], "int64", [7]⟩)])] ["a"]
      ⟨[1], "int64", [9]⟩ none none).1 = .error .accessError) ∧
    ((read_array ⟨true, true, true, true, true⟩
      (write_array ⟨true, true, true, true, true⟩
        [("a", MemValue.dict [("data",
          MemValue.ndarr ⟨[1], "int64", [7]⟩)])] ["a"]
        ⟨[1], "int64", [9]⟩ none none).2
      ["a"] none none true).1 = .ok ⟨[1], "int64", [9]⟩) := by
  constructor
  · exact (C2_overwrite_gate ⟨true, true, false, true, true⟩
      [("a", MemValue.dict [("data", MemValue.ndarr ⟨[1], "int64", [7]⟩)])]
      ["a"] _ ⟨[1], "int64", [9]⟩ rfl (by simp) rfl).1 rfl
  · obtain ⟨d3, hw, hrd⟩ := (C2_overwrite_gate ⟨true, true, true, true, true⟩
      [("a", MemValue.dict [("data", MemValue.ndarr ⟨[1], "int64", [7]⟩)])]
      ["a"] _ ⟨[1], "int64", [9]⟩ rfl (by simp) rfl).2 "overwrite" rfl rfl
    rw [hw]
    exact hrd

/-- C4: the membership test `loc in store` is `True` for the root on every
store (including a freshly opened empty one); for a non-empty location it is
`True` exactly when the final segment appears among the parent's children
(the filtered `keys` of the parent), it is `False` — not an error — when the
parent location does not exist (its lookup fails with `KeyError`), and it is
`True` immediately after a successful `create_group` on that exact
(non-reserved) location. -/
theorem C4_membership (d : Dict) :
    (contains d []).1 = .ok true ∧
    (∀ loc ks d1, loc ≠ [] → keys d loc.dropLast = (.ok ks, d1) →
      contains d loc = (.ok (ks.contains (loc.getLastD "")), d1)) ∧
    (∀ loc, loc ≠ [] → (getitem d loc.dropLast).1 = .error .keyError →
      (contains d loc).1 = .ok false) ∧
    (∀ (m : AccessMode) (loc : List String) (u : Unit) (d2 : Dict),
      create_group m d loc none none = (.ok u, d2) →
      isReserved (loc.getLastD "") = false →
      (contains d2 loc).1 = .ok true) := by
  refine ⟨rfl, ?_, ?_, ?_⟩
  · intro loc ks d1 hne hk
    have hie := isEmpty_false_of_ne loc hne
    simp only [contains, hie, Bool.false_eq_true, if_false, hk]
  · intro loc hne hgi
    have hie := isEmpty_false_of_ne loc hne
    by_cases hfe : loc.dropLast = []
    · rw [hfe] at hgi
      simp [getitem] at hgi
    · have hie2 := isEmpty_false_of_ne _ hfe
      rcases hg : getitem d loc.dropLast with ⟨gr, dg⟩
      rw [hg] at hgi
      have hgr : gr = .error .keyError := hgi
      subst hgr
      simp only [contains, hie, Bool.false_eq_true, if_false, keys, hie2, hg]
  · intro m loc u d2 hcg hdun
    by_cases hne : loc = []
    · subst hne; rfl
    · unfold create_group at hcg
      rcases hn : create_group_nodes m d loc with ⟨nr, d1⟩
      rw [hn] at hcg
      cases nr with
      | ok uu =>
          obtain ⟨hsa, hd2⟩ := write_item_attrs_trivial m d1 loc u d2 hcg
          subst hd2
          unfold create_group_nodes at hn
          rcases hc : contains d loc with ⟨cr, dc⟩
          rw [hc] at hn
          cases cr with
          | ok b =>
              cases b with
              | true =>
                  cases hov : m.overwrite with
                  | false => rw [hov] at hn; simp at hn
                  | true =>
                      rw [hov] at hn
                      simp only [if_true] at hn
                      have hd1 : dc = d2 := congrArg Prod.snd hn
                      obtain ⟨hdc, es0, v, hres, hfind, _⟩ :=
                        contains_true_elim d loc dc hne hc
                      have hresloc : resolvePath (.dict d) loc = some v := by
                        rw [← dropLast_append_getLastD loc hne]
                        exact resolvePath_snoc loc.dropLast (.dict d) es0
                          (loc.getLastD "") v hres hfind
                      have := contains_of_resolve d loc v hne hdun hresloc
                      rw [← hd1, hdc, this]
              | false =>
                  cases hins : m.insert with
                  | false => rw [hins] at hn; simp at hn
                  | true =>
                      rw [hins] at hn
                      simp only [Bool.not_true, Bool.false_eq_true, if_false] at hn
                      obtain ⟨ps, hps⟩ := locPrefixes_snoc loc hne
                      rw [hps] at hn
                      obtain ⟨v, hres⟩ := createPrefixes_final m loc hne ps dc d2 hn
                      rw [contains_of_resolve d2 loc v hne hdun hres]
          | error e => simp at hn
      | error e => simp at hcg

/-- Witness for C4: on the store holding exactly one group `"g"`, membership
of `["g"]` matches the parent's child list; on the same store a depth-3
location under an absent parent tests `False` without an error; and after
`create_group ["h"]` on the empty store (mode "insert") the location
`["h"]` is contained. -/
theorem C4_membership_witness :
    contains [("g", MemValue.dict [])] ["g"] =
      (.ok ((["g"] : List String).contains "g"), [("g", MemValue.dict [])]) ∧
    (contains [("g", MemValue.dict [])] ["x", "y", "z"]).1 = .ok false ∧
    (contains (create_group ⟨true, true, false, true, true⟩ [] ["h"] none none).2
      ["h"]).1 = .ok true := by
  refine ⟨?_, ?_, ?_⟩
  · exact (C4_membership [("g", MemValue.dict [])]).2.1 ["g"] ["g"]
      [("g", MemValue.dict [])] (by simp) rfl
  · exact (C4_membership [("g", MemValue.dict [])]).2.2.1 ["x", "y", "z"]
      (by simp) rfl
  · exact (C4_membership []).2.2.2 ⟨true, true, false, true, true⟩ ["h"] ()
      (create_group ⟨true, true, false, true, true⟩ [] ["h"] none none).2
      rfl rfl

/-- C6: when a node already exists at `loc`, `create_dynamic_array` raises in
every access mode and never silently replaces the node: without the
overwrite capability `_check_write_access` raises `AccessError`; with it the
backend still refuses with the already-exists `RuntimeError`.  In both cases
the store is unchanged. -/
theorem C6_create_dynamic_existing (m : AccessMode) (d : Dict)
    (loc : List String) (v : MemValue) (sh : List Nat) (dt : String)
    (rec : Bool) (attrs : Option Dict) (cls : Option String)
    (hres : resolvePath (.dict d) loc = some v) (hne : loc ≠ [])
    (hdun : isReserved (loc.getLastD "") = false) :
    (m.overwrite = false →
      create_dynamic_array m d loc sh dt rec attrs cls =
        (.error .accessError, d)) ∧
    (m.overwrite = true →
      create_dynamic_array m d loc sh dt rec attrs cls =
        (.error .runtimeError, d)) := by
  constructor
  · intro hov
    have hchk := check_write_access_existing m d loc v hne hdun hres
    rw [hov] at hchk
    simp only [Bool.false_eq_true, if_false] at hchk
    unfold create_dynamic_array
    simp only [hchk]
  · intro hov
    have hchk := check_write_access_existing m d loc v hne hdun hres
    rw [hov] at hchk
    simp only [if_true] at hchk
    have hsplit := dropLast_append_getLastD loc hne
    rw [← hsplit] at hres
    obtain ⟨es0, hfront, hfind⟩ :=
      resolvePath_append loc.dropLast (.dict d) (loc.getLastD "") v hres
    have hhas : alHas es0 (loc.getLastD "") = true := by
      unfold alHas
      rw [hfind]
      rfl
    obtain ⟨d2, hrun2, hsp2⟩ := runParent_at_parent m.overwrite true
      (fun es name =>
        if alHas es name then (.error .runtimeError, es)
        else
          let item : Dict :=
            [("data", .dynlist []), ("shape", .shapeV sh), ("dtype", .dtypeV dt)]
          let item := if rec then alSet item "record_array" (.boolV true) else item
          (.ok (), alSet es name (.dict item)))
      d loc.dropLast (loc.getLastD "") es0 hfront (by simp [hov])
    simp only [hhas, if_true] at hrun2 hsp2
    rw [setPath_resolve_id loc.dropLast (.dict d) (.dict es0) hfront] at hsp2
    have hd2 : d2 = d := by injection hsp2
    have hmc : memCreateDynamicArray m d loc sh dt rec =
        (.error .runtimeError, d) := by
      unfold memCreateDynamicArray
      rw [← hsplit, hrun2, hd2]
    unfold create_dynamic_array
    simp only [hchk, hmc]

/-- Witness for C6: dynamic-array creation at the existing node `"a"` fails
with `AccessError` under mode "insert" and with the already-exists
`RuntimeError` under mode "overwrite", leaving the store unchanged. -/
theorem C6_create_dynamic_existing_witness :
    (create_dynamic_array ⟨true, true, false, true, true⟩
      [("a", MemValue.dict [("data", MemValue.ndarr ⟨[], "int64", [1]⟩)])]
      ["a"] [2, 3] "float64" false none none =
      (.error .accessError,
        [("a", MemValue.dict [("data", MemValue.ndarr ⟨[], "int64", [1]⟩)])])) ∧
    (create_dynamic_array ⟨true, true, true, true, true⟩
      [("a", MemValue.dict [("data", MemValue.ndarr ⟨[], "int64", [1]⟩)])]
      ["a"] [2, 3] "float64" false none none =
      (.error .runtimeError,
        [("a", MemValue.dict [("data", MemValue.ndarr ⟨[], "int64", [1]⟩)])])) := by
  constructor
  · exact (C6_create_dynamic_existing ⟨true, true, false, true, true⟩
      [("a", MemValue.dict [("data", MemValue.ndarr ⟨[], "int64", [1]⟩)])]
      ["a"] _ [2, 3] "float64" false none none rfl (by simp) rfl).1 rfl
  · exact (C6_create_dynamic_existing ⟨true, true, true, true, true⟩
      [("a", MemValue.dict [("data", MemValue.ndarr ⟨[], "int64", [1]⟩)])]
      ["a"] _ [2, 3] "float64" false none none rfl (by simp) rfl).2 rfl

/-- C3: appending an entry whose shape differs from the dynamic array's
declared per-entry shape raises the shape-mismatch `TypeError` and leaves
the store — in particular the array's data list and hence its length —
completely unchanged: nothing is truncated, cast, or appended. -/
theorem C3_extend_shape_mismatch (m : AccessMode) (d : Dict)
    (loc : List String) (es as : Dict) (s : List Nat) (arr : NDArray)
    (hda : m.dynamic_append = true) (hne : loc ≠ [])
    (hres : resolvePath (.dict d) loc = some (.dict es))
    (hattrs : alFind es "__attrs__" = some (.dict as))
    (htype : alFind as "__type__" = some (.str "dynamic_array"))
    (hshape : alFind es "shape" = some (.shapeV s))
    (hmm : arr.shape ≠ s) :
    extend_dynamic_array m d loc arr = (.error .typeError, d) := by
  have hgi := getitem_of_resolve d loc (.dict es) hne hres
  have hra : memReadAttrs d loc = (.ok as, d) := by
    unfold memReadAttrs
    simp only [hgi, hattrs]
  have hsplit := dropLast_append_getLastD loc hne
  rw [← hsplit] at hres
  obtain ⟨es0, hfront, hfind⟩ :=
    resolvePath_append loc.dropLast (.dict d) (loc.getLastD "") _ hres
  have hext : extendItemOp arr (.dict es) = (.error .typeError, .dict es) := by
    unfold extendItemOp
    simp only [hshape]
    rw [if_pos (Ne.symm hmm)]
  obtain ⟨d2, hrun2, hsp2⟩ := runParent_at_parent false false
    (fun es2 name =>
      match alFind es2 name with
      | some v =>
          let r := extendItemOp arr v
          (r.1, alSet es2 name r.2)
      | none => (.error .keyError, es2))
    d loc.dropLast (loc.getLastD "") es0 hfront (by simp)
  simp only [hfind, hext, alSet_eq_of_find es0 (loc.getLastD "") (.dict es) hfind]
    at hrun2 hsp2
  rw [setPath_resolve_id loc.dropLast (.dict d) (.dict es0) hfront] at hsp2
  have hd2 : d2 = d := by injection hsp2
  have hie := isEmpty_false_of_ne loc hne
  have hmx : memExtendDynamicArray d loc arr = (.error .typeError, d) := by
    unfold memExtendDynamicArray
    simp only [hie, Bool.false_eq_true, if_false]
    rw [← hsplit, hrun2, hd2]
  unfold extend_dynamic_array
  rw [hda]
  simp only [Bool.not_true, Bool.false_eq_true, if_false, hra, htype, if_pos rfl]
  exact hmx

/-- Witness for C3: a `(2,3)` float dynamic array refuses a `(3,2)` entry
with `TypeError`, store unchanged (length still 0). -/
theorem C3_extend_shape_mismatch_witness :
    extend_dynamic_array ⟨true, true, false, true, true⟩
      [("dyn", MemValue.dict
        [("data", MemValue.dynlist []), ("shape", MemValue.shapeV [2, 3]),
         ("dtype", MemValue.dtypeV "float64"),
         ("__attrs__", MemValue.dict
           [("__type__", MemValue.str "dynamic_array")])])]
      ["dyn"] ⟨[3, 2], "float64", [1, 2, 3, 4, 5, 6]⟩ =
    (.error .typeError,
      [("dyn", MemValue.dict
        [("data", MemValue.dynlist []), ("shape", MemValue.shapeV [2, 3]),
         ("dtype", MemValue.dtypeV "float64"),
         ("__attrs__", MemValue.dict
           [("__type__", MemValue.str "dynamic_array")])])]) :=
  C3_extend_shape_mismatch ⟨true, true, false, true, true⟩ _ ["dyn"] _ _
    [2, 3] ⟨[3, 2], "float64", [1, 2, 3, 4, 5, 6]⟩ rfl (by simp) rfl rfl rfl rfl
    (by decide)

theorem decode_attrs_keys :
    ∀ (l r : Dict), decode_attrs l = .ok r →
      r.map Prod.fst = l.map Prod.fst := by
  intro l
  induction l with
  | nil =>
      intro r h
      simp only [decode_attrs] at h
      injection h with hh
      rw [← hh]
  | cons kv rest ih =>
      intro r h
      obtain ⟨k, v⟩ := kv
      cases hv : decode_attr v with
      | error e =>
          simp only [decode_attrs, hv] at h
          exact Except.noConfusion h
      | ok v2 =>
          cases hr2 : decode_attrs rest with
          | error e =>
              simp only [decode_attrs, hv, hr2] at h
              exact Except.noConfusion h
          | ok rest2 =>
              simp only [decode_attrs, hv, hr2] at h
              injection h with hh
              rw [← hh]
              simp [ih rest2 hr2]

/-- C5: no key returned by `read_attrs` carries the reserved
double-underscore marker: the internal metadata keys are filtered out of the
reader-visible mapping before decoding, and decoding preserves keys. -/
theorem C5_no_reserved_keys (m : AccessMode) (d : Dict) (loc : List String)
    (res : Dict) (d1 : Dict)
    (h : read_attrs m d loc = (.ok res, d1)) :
    ∀ kv ∈ res, isReserved kv.1 = false := by
  unfold read_attrs at h
  cases hrd : m.read with
  | false => rw [hrd] at h; simp at h
  | true =>
      rw [hrd] at h
      simp only [Bool.not_true, Bool.false_eq_true, if_false] at h
      split at h
      next raw d1x heqm =>
        split at h
        next res2 heqd =>
          have hres2 : res2 = res := by
            have := congrArg Prod.fst h
            simpa using this
          subst hres2
          intro kv hkv
          have hkeys := decode_attrs_keys _ _ heqd
          have h1 : kv.1 ∈ (raw.filter fun kv2 => !isReserved kv2.1).map Prod.fst := by
            rw [← hkeys]
            exact List.mem_map_of_mem Prod.fst hkv
          obtain ⟨kv2, hkv2mem, hkv2eq⟩ := List.mem_map.mp h1
          have hflt := List.of_mem_filter hkv2mem
          rw [← hkv2eq]
          simpa using hflt
        next e heqd => simp at h
      next e d1x heqm => simp at h

/-- Witness for C5: a node carrying both the internal kind tag and one
encoded user attribute; the single key `read_attrs` returns is not
reserved. -/
theorem C5_no_reserved_keys_witness : isReserved "note" = false := by
  have h := C5_no_reserved_keys ⟨true, false, false, false, false⟩
    [("a", MemValue.dict [("__attrs__", MemValue.dict
      [("__type__", MemValue.str "array"), ("note", MemValue.enc "str" "x")])])]
    ["a"] [("note", MemValue.str "x")]
    [("a", MemValue.dict [("__attrs__", MemValue.dict
      [("__type__", MemValue.str "array"), ("note", MemValue.enc "str" "x")])])]
    rfl ("note", MemValue.str "x") (by simp)
  exact h

theorem memWriteObject_resolve (m : AccessMode) (d : Dict) (loc : List String)
    (obj : String) (d2 : Dict)
    (h : memWriteObject m d loc obj = (.ok (), d2)) :
    resolvePath (.dict d2) loc = some (.dict [("data", .objV obj)]) := by
  unfold memWriteObject at h
  obtain ⟨item, hP, hres⟩ := runParent_assign_resolve m.overwrite true _
    (fun item => item = MemValue.dict [("data", .objV obj)])
    (fun es n _ => ⟨_, rfl, rfl⟩) d d2 loc h
  rw [hP] at hres
  exact hres

/-- C10: every node-creating operation implicitly requires the `set_attrs`
capability: `write_attrs` checks `set_attrs` before checking whether any
attributes remain to be written, so under a mode without `set_attrs`,
`create_group`, `write_array`, `create_dynamic_array` and `write_object` all
raise `AccessError` even with no user attributes — and for
`write_array`/`write_object` the raw data has already been written into the
store when that error is raised. -/
theorem C10_set_attrs_required (m : AccessMode) (hsa : m.set_attrs = false) :
    (∀ d loc attrs, (write_attrs m d loc attrs).1 = .error .accessError) ∧
    (∀ d loc d1, create_group_nodes m d loc = (.ok (), d1) →
      create_group m d loc none none = (.error .accessError, d1)) ∧
    (∀ d loc arr d1 d2, check_write_access m d loc = (.ok (), d1) →
      memWriteArray m d1 loc arr = (.ok (), d2) →
      write_array m d loc arr none none = (.error .accessError, d2) ∧
        resolvePath (.dict d2) loc = some (.dict [("data", .ndarr arr)])) ∧
    (∀ d loc sh dt rec d1 d2, check_write_access m d loc = (.ok (), d1) →
      memCreateDynamicArray m d1 loc sh dt rec = (.ok (), d2) →
      create_dynamic_array m d loc sh dt rec none none =
        (.error .accessError, d2)) ∧
    (∀ d loc obj d1 d2, check_write_access m d loc = (.ok (), d1) →
      memWriteObject m d1 loc obj = (.ok (), d2) →
      write_object m d loc obj none none = (.error .accessError, d2) ∧
        resolvePath (.dict d2) loc = some (.dict [("data", .objV obj)])) := by
  have hwa : ∀ d loc (attrs : Option Dict),
      write_attrs m d loc attrs = (.error .accessError, d) := by
    intro d loc attrs
    unfold write_attrs
    rw [hsa]
    rfl
  refine ⟨fun d loc attrs => by rw [hwa], ?_, ?_, ?_, ?_⟩
  · intro d loc d1 hn
    unfold create_group
    simp only [hn]
    show write_attrs m d1 loc (some []) = (.error .accessError, d1)
    exact hwa d1 loc (some [])
  · intro d loc arr d1 d2 hchk hw
    refine ⟨?_, memWriteArray_resolve m d1 loc arr d2 hw⟩
    unfold write_array
    simp only [hchk, hw]
    show write_attrs m d2 loc (some [("__type__", .str "array")]) =
      (.error .accessError, d2)
    exact hwa d2 loc _
  · intro d loc sh dt rec d1 d2 hchk hw
    unfold create_dynamic_array
    simp only [hchk, hw]
    show write_attrs m d2 loc (some [("__type__", .str "dynamic_array")]) =
      (.error .accessError, d2)
    exact hwa d2 loc _
  · intro d loc obj d1 d2 hchk hw
    refine ⟨?_, memWriteObject_resolve m d1 loc obj d2 hw⟩
    unfold write_object
    simp only [hchk, hw]
    show write_attrs m d2 loc (some [("__type__", .str "object")]) =
      (.error .accessError, d2)
    exact hwa d2 loc _

/-- Witness for C10: under mode bundle (read, insert, no overwrite, no
set_attrs, no append) on the empty store, all four node-creating operations
fail with `AccessError` at `["a"]`, and after the failing `write_array` the
raw array data is present at `["a"]`. -/
theorem C10_set_attrs_required_witness :
    ((write_attrs ⟨true, true, false, false, false⟩ [] ["a"] none).1 =
      .error .accessError) ∧
    (create_group ⟨true, true, false, false, false⟩ [] ["a"] none none =
      (.error .accessError, [("a", MemValue.dict [])])) ∧
    (write_array ⟨true, true, false, false, false⟩ [] ["a"]
        ⟨[2], "int64", [5, 6]⟩ none none = (.error .accessError,
        [("a", MemValue.dict [("data", MemValue.ndarr ⟨[2], "int64", [5, 6]⟩)])]) ∧
      resolvePath (.dict [("a", MemValue.dict
        [("data", MemValue.ndarr ⟨[2], "int64", [5, 6]⟩)])]) ["a"] =
        some (.dict [("data", MemValue.ndarr ⟨[2], "int64", [5, 6]⟩)])) ∧
    (write_object ⟨true, true, false, false, false⟩ [] ["a"] "obj" none none =
      (.error .accessError,
        [("a", MemValue.dict [("data", MemValue.objV "obj")])])) := by
  have h := C10_set_attrs_required ⟨true, true, false, false, false⟩ rfl
  refine ⟨h.1 [] ["a"] none, ?_, ?_, ?_⟩
  · exact h.2.1 [] ["a"] [("a", MemValue.dict [])] rfl
  · exact h.2.2.1 [] ["a"] ⟨[2], "int64", [5, 6]⟩ [] _ rfl rfl
  · exact (h.2.2.2.2 [] ["a"] "obj" [] _ rfl rfl).1

/-- C7: the root location (empty sequence) is always contained in the store
and can never directly hold array, dynamic-array, or object data: in every
access mode, `write_array`, `create_dynamic_array` and `write_object` called
with the empty location raise an error (`RuntimeError`, from
`_check_write_access`) and leave the store unchanged. -/
theorem C7_root_always_group (m : AccessMode) (d : Dict) (arr : NDArray)
    (sh : List Nat) (dt : String) (rec : Bool) (obj : String)
    (attrs : Option Dict) (cls : Option String) :
    (contains d []).1 = .ok true ∧
    write_array m d [] arr attrs cls = (.error .runtimeError, d) ∧
    create_dynamic_array m d [] sh dt rec attrs cls = (.error .runtimeError, d) ∧
    write_object m d [] obj attrs cls = (.error .runtimeError, d) := by
  refine ⟨rfl, ?_, ?_, ?_⟩
  · simp [write_array, check_write_access]
  · simp [create_dynamic_array, check_write_access]
  · simp [write_object, check_write_access]

/-- C9: the membership test is not read-only on the in-memory backend.  On
the empty store, `["a"] in store` is `False`; evaluating
`["a","b","c"] in store` returns `False` but, through the intermediate-group
creation of `_get_parent`, installs an empty group node `"a"`, after which
`["a"] in store` is `True` even though the store was never written through
the public API. -/
theorem C9_contains_mutates :
    (contains ([] : Dict) ["a"]).1 = .ok false ∧
    contains ([] : Dict) ["a", "b", "c"] =
      (.ok false, [("a", MemValue.dict [])]) ∧
    (contains [("a", MemValue.dict [])] ["a"]).1 = .ok true ∧
    ([("a", MemValue.dict [])] : Dict) ≠ [] := by
  refine ⟨rfl, rfl, rfl, by simp⟩

/-- C8: during legacy-format triage, when the format-version lookup yields
`None`, the read dispatches to the version-0 loader, exactly as it does for
an explicit version 0, rather than failing. -/
theorem C8_missing_version_loads_v0 (data : JValue) (label : String)
    (h : find_version data label = .ok none) :
    result_check_load_json data label = .ok .loadV0 ∧
    triage_dispatch (some (.jint 0)) = .ok .loadV0 := by
  constructor
  · simp [result_check_load_json, h, triage_dispatch]
  · rfl

/-- Witness for C8: concrete data carrying no version information at all. -/
theorem C8_witness :
    find_version (.jdict []) "data" = .ok none ∧
    result_check_load_json (.jdict []) "data" = .ok .loadV0 := by
  have h : find_version (.jdict []) "data" = .ok none := by
    simp [find_version, read_version, alFind]
  exact ⟨h, (C8_missing_version_loads_v0 (.jdict []) "data" h).1⟩

end PyModelrunner
